import Mathlib

/-!
Verification development for the pyozo robot-protocol library.

The definitions below are a shallow embedding of the protocol layer of the
repository: the declarative binary codec (`protocol_utils.py`), the two
packet registries (`cts_encoder.py`, `fts_encoder.py`), the fragmentation
logic of the file-transfer client (`fts_client.py`), the block download loop
(`fts.py`), and the pending-request correlation state of the control-service
client (`cts_client.py`).

Conventions:
- Python `bytes` values are `List ℕ` with entries below 256.
- Python `str` values are lists of Unicode code points (`List ℕ`); the
  UTF-8 transcoding the source performs is modelled explicitly.
- Python `float` values are modelled as rationals; `round` is modelled as
  round-half-to-even (`pyRound`), matching Python 3 semantics.
- Fallible Python code (struct range errors, decode errors, KeyError and
  so on) is modelled with `Except`/`Option` results.
-/

namespace Pyozo

/-! ## Little-endian byte encoding (struct "<..." formats) -/

/-- Little-endian byte encoding of `n` over `w` bytes (`struct.pack`, "<"). -/
def encLE : ℕ → ℕ → List ℕ
  | 0, _ => []
  | w + 1, n => n % 256 :: encLE w (n / 256)

/-- Little-endian read of a whole byte list (`struct.unpack`, "<"). -/
def readLE (bs : List ℕ) : ℕ :=
  bs.foldr (fun b acc => b + 256 * acc) 0

theorem encLE_length (w n : ℕ) : (encLE w n).length = w := by
  induction w generalizing n with
  | zero => rfl
  | succ w ih => simp [encLE, ih]

theorem readLE_encLE {w n : ℕ} (h : n < 256 ^ w) : readLE (encLE w n) = n := by
  induction w generalizing n with
  | zero =>
    simp only [pow_zero, Nat.lt_one_iff] at h
    simp [encLE, readLE, h]
  | succ w ih =>
    have hdiv : n / 256 < 256 ^ w := by
      rw [Nat.div_lt_iff_lt_mul (by norm_num)]
      calc n < 256 ^ (w + 1) := h
        _ = 256 ^ w * 256 := by ring
    have := ih hdiv
    simp only [encLE, readLE, List.foldr_cons] at *
    rw [this]
    omega

theorem encLE_lt (w n : ℕ) : ∀ b ∈ encLE w n, b < 256 := by
  induction w generalizing n with
  | zero => simp [encLE]
  | succ w ih =>
    intro b hb
    simp only [encLE, List.mem_cons] at hb
    rcases hb with h | h
    · omega
    · exact ih _ b h

/-- Encoding of a signed `w`-byte integer: two's complement, little-endian. -/
def encLEInt (w : ℕ) (v : ℤ) : List ℕ :=
  encLE w (v % (256 ^ w : ℕ)).toNat

/-- Decoding of a signed `w`-byte little-endian integer. -/
def decodeSigned (w : ℕ) (bs : List ℕ) : ℤ :=
  if 2 ^ (8 * w - 1) ≤ (readLE bs : ℤ) then (readLE bs : ℤ) - 2 ^ (8 * w)
  else (readLE bs : ℤ)

theorem emod_toNat_lt (w : ℕ) (v : ℤ) : (v % (256 ^ w : ℕ)).toNat < 256 ^ w := by
  have hpos : (0:ℤ) < (256 ^ w : ℕ) := by positivity
  have h1 := Int.emod_nonneg v (ne_of_gt hpos)
  have h2 := Int.emod_lt_of_pos v hpos
  omega

theorem decodeSigned_encLEInt {w : ℕ} (hw : 0 < w) {v : ℤ}
    (hlo : -(2 ^ (8 * w - 1)) ≤ v) (hhi : v < 2 ^ (8 * w - 1)) :
    decodeSigned w (encLEInt w v) = v := by
  have hM : ((256 ^ w : ℕ) : ℤ) = 2 ^ (8 * w) := by
    push_cast
    rw [show (256:ℤ) = 2 ^ 8 by norm_num, ← pow_mul]
  have hpos : (0:ℤ) < (256 ^ w : ℕ) := by positivity
  have h1 := Int.emod_nonneg v (ne_of_gt hpos)
  have h2 := Int.emod_lt_of_pos v hpos
  have hread : readLE (encLE w (v % (256 ^ w : ℕ)).toNat) = (v % (256 ^ w : ℕ)).toNat :=
    readLE_encLE (emod_toNat_lt w v)
  have hp1 : (0:ℤ) < 2 ^ (8 * w - 1) := by positivity
  have hhalf : (2:ℤ) ^ (8 * w - 1) + 2 ^ (8 * w - 1) = 2 ^ (8 * w) := by
    rw [← two_mul, ← pow_succ']
    congr 1
    omega
  have hmod : v % (256 ^ w : ℕ) = v ∨ v % (256 ^ w : ℕ) = v + 2 ^ (8 * w) := by
    rcases le_or_lt 0 v with h | h
    · left
      apply Int.emod_eq_of_lt h
      rw [hM]; omega
    · right
      have key : (v + 2 ^ (8 * w)) % ((256 ^ w : ℕ) : ℤ) = v % ((256 ^ w : ℕ) : ℤ) := by
        rw [hM]
        simpa using Int.add_mul_emod_self_left (a := v) (b := (2:ℤ) ^ (8 * w)) (c := 1)
      rw [← key]
      exact Int.emod_eq_of_lt (by omega) (by rw [hM]; omega)
  simp only [decodeSigned, encLEInt, hread]
  rcases hmod with h | h <;> rw [h] <;> split <;> omega

/-! ## Fixed-point 24-bit float conversion (`protocol_utils.float_to_s24`) -/

/-- Python 3 `round` on a rational: round half to even. -/
def pyRound (q : ℚ) : ℤ :=
  if q - ⌊q⌋ < 1/2 then ⌊q⌋
  else if 1/2 < q - ⌊q⌋ then ⌊q⌋ + 1
  else if ⌊q⌋ % 2 = 0 then ⌊q⌋ else ⌊q⌋ + 1

theorem pyRound_intCast (k : ℤ) : pyRound (k : ℚ) = k := by
  norm_num [pyRound]

theorem pyRound_sub_le (q : ℚ) : |q - pyRound q| ≤ 1/2 := by
  have h0 : (⌊q⌋ : ℚ) ≤ q := Int.floor_le q
  have h1 : q < ⌊q⌋ + 1 := Int.lt_floor_add_one q
  unfold pyRound
  split
  · rw [abs_le]; constructor <;> push_cast <;> linarith
  · split
    · rw [abs_le]; push_cast; constructor <;> linarith
    · split <;> rw [abs_le] <;> push_cast <;> constructor <;> linarith

/-- For even `m`, `pyRound q < m` holds exactly when `q < m - 1/2`. -/
theorem pyRound_lt_iff {m : ℤ} (hm : m % 2 = 0) (q : ℚ) :
    pyRound q < m ↔ q < (m : ℚ) - 1/2 := by
  have h0 : (⌊q⌋ : ℚ) ≤ q := Int.floor_le q
  have h1 : q < ⌊q⌋ + 1 := Int.lt_floor_add_one q
  constructor
  · intro h
    unfold pyRound at h
    split at h
    · -- pyRound = ⌊q⌋ < m, and q < ⌊q⌋ + 1/2 ≤ m - 1/2
      rename_i hr
      have : q - ⌊q⌋ < 1/2 := hr
      have hfm : (⌊q⌋ : ℚ) ≤ (m : ℚ) - 1 := by exact_mod_cast Int.le_sub_one_of_lt h
      linarith
    · split at h
      · rename_i hr hr2
        have hfm : (⌊q⌋ : ℚ) + 1 ≤ (m : ℚ) - 1 := by
          have : ⌊q⌋ + 1 ≤ m - 1 := Int.le_sub_one_of_lt h
          exact_mod_cast this
        linarith
      · rename_i hr hr2
        have hr3 : q - ⌊q⌋ = 1/2 := le_antisymm (not_lt.mp hr2) (not_lt.mp hr)
        split at h
        · -- ⌊q⌋ even, ⌊q⌋ < m, both even so ⌊q⌋ ≤ m - 2
          rename_i he
          have : ⌊q⌋ ≤ m - 2 := by omega
          have : (⌊q⌋ : ℚ) ≤ (m : ℚ) - 2 := by exact_mod_cast this
          linarith
        · have hfm : (⌊q⌋ : ℚ) + 1 ≤ (m : ℚ) - 1 := by
            have : ⌊q⌋ + 1 ≤ m - 1 := Int.le_sub_one_of_lt h
            exact_mod_cast this
          linarith
  · intro h
    unfold pyRound
    have hfl : ⌊q⌋ ≤ m - 1 := by
      have : (⌊q⌋ : ℚ) < m := lt_of_le_of_lt h0 (by linarith)
      exact_mod_cast Int.le_sub_one_of_lt (by exact_mod_cast this)
    split
    · omega
    · split
      · rename_i hr hr2
        -- q - ⌊q⌋ > 1/2 and q < m - 1/2 force ⌊q⌋ ≤ m - 2
        have : (⌊q⌋ : ℚ) < (m : ℚ) - 1 := by linarith
        have : ⌊q⌋ < m - 1 := by exact_mod_cast this
        omega
      · rename_i hr hr2
        have hr3 : q - ⌊q⌋ = 1/2 := le_antisymm (not_lt.mp hr2) (not_lt.mp hr)
        -- q = ⌊q⌋ + 1/2 < m - 1/2, so ⌊q⌋ < m - 1, i.e. ⌊q⌋ ≤ m - 2
        have : (⌊q⌋ : ℚ) < (m : ℚ) - 1 := by linarith
        have hlt : ⌊q⌋ < m - 1 := by exact_mod_cast this
        split <;> omega

/-- For even `m`, `m ≤ pyRound q` holds exactly when `m - 1/2 ≤ q`. -/
theorem le_pyRound_iff {m : ℤ} (hm : m % 2 = 0) (q : ℚ) :
    m ≤ pyRound q ↔ (m : ℚ) - 1/2 ≤ q := by
  rw [← not_lt, ← not_lt, pyRound_lt_iff hm]

/-- `float_to_s24` from `protocol_utils.py`: fixed-point encode with range check. -/
def float_to_s24 (f : ℚ) : Except String ℤ :=
  if pyRound (f * 16777216) < -2 * 1073741824 ∨ 2 * 1073741824 ≤ pyRound (f * 16777216) then
    .error "Cannot convert to S24. Value out of range."
  else
    .ok (pyRound (f * 16777216))

/-- `s24_to_float` from `protocol_utils.py`. -/
def s24_to_float (i : ℤ) : ℚ := (i : ℚ) / 16777216

theorem float_to_s24_ok_iff (f : ℚ) (v : ℤ) :
    float_to_s24 f = .ok v ↔
      v = pyRound (f * 16777216) ∧ -(2 ^ 31) ≤ v ∧ v < 2 ^ 31 := by
  unfold float_to_s24
  split
  · rename_i h
    constructor
    · intro hc; cases hc
    · rintro ⟨rfl, h1, h2⟩
      norm_num at h
      omega
  · rename_i h
    norm_num at h
    constructor
    · intro hc
      cases hc
      refine ⟨rfl, by omega, by omega⟩
    · rintro ⟨rfl, _, _⟩; rfl

theorem float_to_s24_isOk_iff (f : ℚ) :
    (∃ v, float_to_s24 f = .ok v) ↔
      (-(2:ℚ) ^ 31 - 1/2) / 2 ^ 24 ≤ f ∧ f < ((2:ℚ) ^ 31 - 1/2) / 2 ^ 24 := by
  have h24 : ((16777216 : ℚ)) = 2 ^ 24 := by norm_num
  have hlo := le_pyRound_iff (m := -(2 ^ 31)) (by norm_num) (f * 16777216)
  have hhi := pyRound_lt_iff (m := 2 ^ 31) (by norm_num) (f * 16777216)
  constructor
  · rintro ⟨v, hv⟩
    rw [float_to_s24_ok_iff] at hv
    obtain ⟨rfl, h1, h2⟩ := hv
    have l1 := hlo.mp h1
    have l2 := hhi.mp h2
    push_cast at l1 l2 ⊢
    constructor
    · rw [div_le_iff (by norm_num)]; linarith
    · rw [lt_div_iff (by norm_num)]; linarith
  · rintro ⟨h1, h2⟩
    rw [div_le_iff (by norm_num)] at h1
    rw [lt_div_iff (by norm_num)] at h2
    refine ⟨pyRound (f * 16777216), ?_⟩
    rw [float_to_s24_ok_iff]
    refine ⟨rfl, ?_, ?_⟩
    · apply hlo.mpr; push_cast; linarith
    · apply hhi.mpr; push_cast; linarith

theorem s24_roundtrip_close {f : ℚ} {v : ℤ} (h : float_to_s24 f = .ok v) :
    |s24_to_float v - f| ≤ 1 / 2 ^ 24 := by
  rw [float_to_s24_ok_iff] at h
  obtain ⟨rfl, -, -⟩ := h
  have h2 := pyRound_sub_le (f * 16777216)
  unfold s24_to_float
  rw [abs_le] at h2 ⊢
  constructor <;> linarith [h2.1, h2.2]

/-! ## Claim C6: fixed-point float encode/decode -/

/-- C6 counterexample: the claim states that encoding any `x` outside
`[-2×2^30/2^24, 2×2^30/2^24)` fails, but `x = -(2^32+1)/2^25` lies strictly
below `-2^31/2^24` and still encodes successfully (to `-2^31`), because the
range check applies to the rounded intermediate value, not to `x` itself. -/
theorem C6_counterexample :
    (-(2 ^ 32 + 1) / 2 ^ 25 : ℚ) < -2 * 1073741824 / 2 ^ 24 ∧
      float_to_s24 (-(2 ^ 32 + 1) / 2 ^ 25) = .ok (-(2 ^ 31)) := by
  constructor
  · norm_num
  · with_unfolding_all rfl

/-- C6 (amended): encoding a FLOAT field computes `f = round(value × 2^24)`
(round half to even) and raises a range error exactly when `f` falls outside
`[-2×2^30, 2×2^30)`; decoding divides the stored integer by `2^24`; hence
`decode(encode(x))` is within `2^-24` of `x` whenever encoding succeeds, and
encoding `x` succeeds exactly when `x` lies in
`[(-2^31 - 1/2)/2^24, (2^31 - 1/2)/2^24)` (rather than in
`[-2×2^30/2^24, 2×2^30/2^24)` as originally claimed). -/
theorem C6_fixed_point_float :
    (∀ f v, float_to_s24 f = .ok v ↔
        v = pyRound (f * 2 ^ 24) ∧ -(2 ^ 31) ≤ v ∧ v < 2 ^ 31)
    ∧ (∀ i : ℤ, s24_to_float i = (i : ℚ) / 2 ^ 24)
    ∧ (∀ f v, float_to_s24 f = .ok v → |s24_to_float v - f| ≤ 1 / 2 ^ 24)
    ∧ (∀ f : ℚ, (∃ v, float_to_s24 f = .ok v) ↔
        (-(2:ℚ) ^ 31 - 1/2) / 2 ^ 24 ≤ f ∧ f < ((2:ℚ) ^ 31 - 1/2) / 2 ^ 24) := by
  refine ⟨?_, ?_, ?_, ?_⟩
  · intro f v
    rw [show ((2:ℚ) ^ 24) = 16777216 by norm_num]
    exact float_to_s24_ok_iff f v
  · intro i
    unfold s24_to_float
    norm_num
  · intro f v h
    exact s24_roundtrip_close h
  · exact float_to_s24_isOk_iff

/-- C6 witness: at `x = 1/2^24` encoding succeeds with value 1 and the
decoded value is within `2^-24` of `x`. -/
theorem C6_witness :
    float_to_s24 (1 / 2 ^ 24) = .ok 1 ∧ |s24_to_float 1 - 1 / 2 ^ 24| ≤ 1 / 2 ^ 24 :=
  ⟨by with_unfolding_all rfl,
   C6_fixed_point_float.2.2.1 (1 / 2 ^ 24) 1 (by with_unfolding_all rfl)⟩

/-! ## UTF-8 transcoding (Python `str.encode("utf8")` / `bytes.decode("utf8")`)

Python strings are modelled as lists of Unicode code points. -/

/-- A code point Python will encode: below 0x110000 and not a surrogate. -/
def validCp (cp : ℕ) : Bool :=
  cp < 0x110000 && !(0xD800 ≤ cp && cp < 0xE000)

/-- UTF-8 encoding of a single code point. -/
def utf8EncodeChar (cp : ℕ) : List ℕ :=
  if cp < 0x80 then [cp]
  else if cp < 0x800 then [0xC0 + cp / 64, 0x80 + cp % 64]
  else if cp < 0x10000 then
    [0xE0 + cp / 4096, 0x80 + cp / 64 % 64, 0x80 + cp % 64]
  else
    [0xF0 + cp / 262144, 0x80 + cp / 4096 % 64, 0x80 + cp / 64 % 64, 0x80 + cp % 64]

/-- UTF-8 encoding of a string (list of code points). -/
def utf8Encode (cps : List ℕ) : List ℕ :=
  cps.flatMap utf8EncodeChar

/-- Decoded value of a 2-byte UTF-8 sequence. -/
def cp2 (b0 b1 : ℕ) : ℕ := (b0 - 0xC0) * 64 + (b1 - 0x80)

/-- Decoded value of a 3-byte UTF-8 sequence. -/
def cp3 (b0 b1 b2 : ℕ) : ℕ := (b0 - 0xE0) * 4096 + (b1 - 0x80) * 64 + (b2 - 0x80)

/-- Decoded value of a 4-byte UTF-8 sequence. -/
def cp4 (b0 b1 b2 b3 : ℕ) : ℕ :=
  (b0 - 0xF0) * 262144 + (b1 - 0x80) * 4096 + (b2 - 0x80) * 64 + (b3 - 0x80)

/-- A UTF-8 continuation byte. -/
def contByte (b : ℕ) : Prop := 0x80 ≤ b ∧ b < 0xC0

instance (b : ℕ) : Decidable (contByte b) := by unfold contByte; infer_instance

/-- Decode one UTF-8 character from a lead byte and the following bytes:
returns the code point and how many continuation bytes were consumed.
Rejects stray/missing continuation bytes, overlong encodings, surrogates
and out-of-range code points. -/
def utf8DecodeChar (b0 : ℕ) (rest : List ℕ) : Option (ℕ × ℕ) :=
  if b0 < 0x80 then some (b0, 0)
  else if b0 < 0xC0 then none
  else if b0 < 0xE0 then
    match rest with
    | b1 :: _ =>
      if contByte b1 ∧ 0x80 ≤ cp2 b0 b1 then some (cp2 b0 b1, 1) else none
    | [] => none
  else if b0 < 0xF0 then
    match rest with
    | b1 :: b2 :: _ =>
      if (contByte b1 ∧ contByte b2) ∧
          0x800 ≤ cp3 b0 b1 b2 ∧ validCp (cp3 b0 b1 b2) = true then
        some (cp3 b0 b1 b2, 2)
      else none
    | _ => none
  else if b0 < 0xF8 then
    match rest with
    | b1 :: b2 :: b3 :: _ =>
      if (contByte b1 ∧ contByte b2 ∧ contByte b3) ∧
          0x10000 ≤ cp4 b0 b1 b2 b3 ∧ cp4 b0 b1 b2 b3 < 0x110000 then
        some (cp4 b0 b1 b2 b3, 3)
      else none
    | _ => none
  else none

/-- Strict UTF-8 decoding of a whole byte string. -/
def utf8Decode : List ℕ → Option (List ℕ)
  | [] => some []
  | b0 :: rest =>
    match utf8DecodeChar b0 rest with
    | some (cp, k) => (utf8Decode (rest.drop k)).map (cp :: ·)
    | none => none
  termination_by l => l.length
  decreasing_by
    simp_wf
    have := List.length_drop k rest
    omega

theorem utf8EncodeChar_length_le (cp : ℕ) : (utf8EncodeChar cp).length ≤ 4 := by
  unfold utf8EncodeChar
  split
  · simp
  · split
    · simp
    · split <;> simp

theorem utf8EncodeChar_ascii {cp : ℕ} (h : cp < 0x80) : utf8EncodeChar cp = [cp] := by
  simp [utf8EncodeChar, h]

theorem utf8EncodeChar_lt (cp : ℕ) (h : validCp cp = true) :
    ∀ b ∈ utf8EncodeChar cp, b < 256 := by
  simp only [validCp, Bool.and_eq_true, decide_eq_true_eq, Bool.not_eq_true'] at h
  have h1 : cp < 0x110000 := h.1
  intro b hb
  unfold utf8EncodeChar at hb
  split at hb
  · simp only [List.mem_cons, List.not_mem_nil, or_false] at hb
    omega
  · split at hb
    · simp only [List.mem_cons, List.not_mem_nil, or_false] at hb
      rcases hb with rfl | rfl <;> omega
    · split at hb
      · simp only [List.mem_cons, List.not_mem_nil, or_false] at hb
        rcases hb with rfl | rfl | rfl <;> omega
      · simp only [List.mem_cons, List.not_mem_nil, or_false] at hb
        rcases hb with rfl | rfl | rfl | rfl <;> omega

theorem utf8Decode_cons {b0 cp k : ℕ} (rest : List ℕ)
    (h : utf8DecodeChar b0 rest = some (cp, k)) :
    utf8Decode (b0 :: rest) = (utf8Decode (rest.drop k)).map (cp :: ·) := by
  rw [utf8Decode, h]

theorem utf8Decode_encode_cons (cp : ℕ) (h : validCp cp = true) (rest : List ℕ) :
    utf8Decode (utf8EncodeChar cp ++ rest) = (utf8Decode rest).map (cp :: ·) := by
  have hv := h
  simp only [validCp, Bool.and_eq_true, decide_eq_true_eq, Bool.not_eq_true'] at h
  obtain ⟨h1, h2⟩ := h
  by_cases c1 : cp < 0x80
  · rw [utf8EncodeChar_ascii c1]
    simp only [List.cons_append, List.nil_append]
    rw [utf8Decode_cons rest (by unfold utf8DecodeChar; rw [if_pos c1])]
    simp
  · by_cases c2 : cp < 0x800
    · have e1 : utf8EncodeChar cp = [0xC0 + cp / 64, 0x80 + cp % 64] := by
        simp [utf8EncodeChar, c1, c2]
      have hm : cp % 64 < 64 := Nat.mod_lt _ (by norm_num)
      have hrec : cp2 (0xC0 + cp / 64) (0x80 + cp % 64) = cp := by
        unfold cp2
        have := Nat.div_add_mod cp 64
        omega
      have hchar : utf8DecodeChar (0xC0 + cp / 64) ((0x80 + cp % 64) :: rest) =
          some (cp, 1) := by
        unfold utf8DecodeChar
        rw [if_neg (by omega), if_neg (by omega), if_pos (by omega)]
        dsimp only
        rw [if_pos ⟨⟨by omega, by omega⟩, by rw [hrec]; omega⟩, hrec]
      rw [e1]
      simp only [List.cons_append, List.nil_append]
      rw [utf8Decode_cons _ hchar]
      simp
    · by_cases c3 : cp < 0x10000
      · have e1 : utf8EncodeChar cp =
            [0xE0 + cp / 4096, 0x80 + cp / 64 % 64, 0x80 + cp % 64] := by
          simp [utf8EncodeChar, c1, c2, c3]
        have hd : cp / 4096 < 16 := by omega
        have hm1 : cp / 64 % 64 < 64 := Nat.mod_lt _ (by norm_num)
        have hm2 : cp % 64 < 64 := Nat.mod_lt _ (by norm_num)
        have hrec : cp3 (0xE0 + cp / 4096) (0x80 + cp / 64 % 64) (0x80 + cp % 64) = cp := by
          unfold cp3
          have e2 : cp / 4096 = cp / 64 / 64 := by rw [Nat.div_div_eq_div_mul]
          have e3 := Nat.div_add_mod (cp / 64) 64
          have e4 := Nat.div_add_mod cp 64
          omega
        have hchar : utf8DecodeChar (0xE0 + cp / 4096)
            ((0x80 + cp / 64 % 64) :: (0x80 + cp % 64) :: rest) = some (cp, 2) := by
          unfold utf8DecodeChar
          rw [if_neg (by omega), if_neg (by omega), if_neg (by omega), if_pos (by omega)]
          dsimp only
          rw [if_pos ⟨⟨⟨by omega, by omega⟩, by omega, by omega⟩,
            by rw [hrec]; omega, by rw [hrec]; exact hv⟩, hrec]
        rw [e1]
        simp only [List.cons_append, List.nil_append]
        rw [utf8Decode_cons _ hchar]
        simp
      · have e1 : utf8EncodeChar cp =
            [0xF0 + cp / 262144, 0x80 + cp / 4096 % 64, 0x80 + cp / 64 % 64,
              0x80 + cp % 64] := by
          simp [utf8EncodeChar, c1, c2, c3]
        have hd : cp / 262144 < 5 := by omega
        have hm0 : cp / 4096 % 64 < 64 := Nat.mod_lt _ (by norm_num)
        have hm1 : cp / 64 % 64 < 64 := Nat.mod_lt _ (by norm_num)
        have hm2 : cp % 64 < 64 := Nat.mod_lt _ (by norm_num)
        have hrec : cp4 (0xF0 + cp / 262144) (0x80 + cp / 4096 % 64)
            (0x80 + cp / 64 % 64) (0x80 + cp % 64) = cp := by
          unfold cp4
          have e2 : cp / 262144 = cp / 4096 / 64 := by rw [Nat.div_div_eq_div_mul]
          have e5 : cp / 4096 = cp / 64 / 64 := by rw [Nat.div_div_eq_div_mul]
          have e3 := Nat.div_add_mod (cp / 4096) 64
          have e6 := Nat.div_add_mod (cp / 64) 64
          have e4 := Nat.div_add_mod cp 64
          omega
        have hchar : utf8DecodeChar (0xF0 + cp / 262144)
            ((0x80 + cp / 4096 % 64) :: (0x80 + cp / 64 % 64) ::
              (0x80 + cp % 64) :: rest) = some (cp, 3) := by
          unfold utf8DecodeChar
          rw [if_neg (by omega), if_neg (by omega), if_neg (by omega), if_neg (by omega),
            if_pos (by omega)]
          dsimp only
          rw [if_pos ⟨⟨⟨by omega, by omega⟩, ⟨by omega, by omega⟩, by omega, by omega⟩,
            by rw [hrec]; omega, by rw [hrec]; omega⟩, hrec]
        rw [e1]
        simp only [List.cons_append, List.nil_append]
        rw [utf8Decode_cons _ hchar]
        simp

/-- UTF-8 round-trip: decoding an encoded valid string gives it back. -/
theorem utf8Decode_utf8Encode {cps : List ℕ} (h : cps.all validCp = true) :
    utf8Decode (utf8Encode cps) = some cps := by
  induction cps with
  | nil =>
    show utf8Decode [] = some []
    rw [utf8Decode]
  | cons cp rest ih =>
    simp only [List.all_cons, Bool.and_eq_true] at h
    have : utf8Encode (cp :: rest) = utf8EncodeChar cp ++ utf8Encode rest := by
      simp [utf8Encode]
    rw [this, utf8Decode_encode_cons cp h.1, ih h.2]
    rfl

theorem utf8Encode_length_ascii {cps : List ℕ} (h : ∀ c ∈ cps, c < 0x80) :
    (utf8Encode cps).length = cps.length := by
  induction cps with
  | nil => rfl
  | cons cp rest ih =>
    have : utf8Encode (cp :: rest) = utf8EncodeChar cp ++ utf8Encode rest := by
      simp [utf8Encode]
    rw [this]
    simp only [List.length_append, List.length_cons]
    rw [utf8EncodeChar_ascii (h cp (by simp)), ih (fun c hc => h c (by simp [hc]))]
    simp [Nat.add_comm]

/-! ## CRC32 (`zlib.crc32`) -/

/-- One bit step of the reflected CRC-32 (polynomial 0xEDB88320). -/
def crc32Round (c : ℕ) : ℕ :=
  if c % 2 = 1 then (c / 2) ^^^ 0xEDB88320 else c / 2

/-- Fold one byte into the running CRC. -/
def crc32Byte (crc b : ℕ) : ℕ :=
  crc32Round^[8] (crc ^^^ b % 256)

/-- `zlib.crc32` of a byte string. -/
def crc32 (data : List ℕ) : ℕ :=
  (data.foldl crc32Byte 0xFFFFFFFF) ^^^ 0xFFFFFFFF

/-! ## The declarative binary codec (`protocol_utils.py`)

`BaseModel` subclasses declare an ordered field schema; a packet instance is
an assignment of values to those fields.  Here a schema is a `List FieldSpec`
and a packet instance is a schema paired with a `List Value` of equal length.
Enumeration classes are identified with their admissible integer value sets
(`PyEnum`/`enumMem`); an enum-typed member holds the underlying integer. -/

/-- Wire types (`protocol_utils.FieldType`). -/
inductive FieldType
  | UINT8 | UINT16 | UINT32 | INT8 | INT16 | INT32
  | FLOAT
  | BYTES
  | STRZ
  | STR
deriving DecidableEq, Repr

/-- The `Enum`/`Flag` classes used by the two encoder catalogs. -/
inductive PyEnum
  | ioResult | intersectionDirection | lineNavigationAction | lights
  | callStatus | calibrationType | firmwareUpdateTarget | firmwareUpdateSource
  | watcherFlags | watcherRegionFlags | loggingState | memoryTestType
  | executionState | shutdownSource | calibrationResult | errorModuleID
  | volume | responseCode
deriving DecidableEq, Repr

/-- Membership of an integer in an enum class: `EnumClass(v)` succeeds.
For `Flag` classes any combination of the defined bits is admissible. -/
def enumMem : PyEnum → ℤ → Bool
  | .ioResult, v => 0 ≤ v && v ≤ 8
  | .intersectionDirection, v => 0 ≤ v && v ≤ 15
  | .lineNavigationAction, v => 0 ≤ v && v ≤ 1
  | .lights, v => 0 ≤ v && v ≤ 255
  | .callStatus, v => 0 ≤ v && v ≤ 3
  | .calibrationType, v => 0 ≤ v && v ≤ 5
  | .firmwareUpdateTarget, v => 0 ≤ v && v ≤ 1
  | .firmwareUpdateSource, v => 0 ≤ v && v ≤ 1
  | .watcherFlags, v => 0 ≤ v && v ≤ 7
  | .watcherRegionFlags, v => 0 ≤ v && v ≤ 3
  | .loggingState, v => 0 ≤ v && v ≤ 2
  | .memoryTestType, v => 0 ≤ v && v ≤ 2
  | .executionState, v => 0 ≤ v && v ≤ 6
  | .shutdownSource, v => 0 ≤ v && v ≤ 7
  | .calibrationResult, v => 0 ≤ v && v ≤ 7
  | .errorModuleID, v =>
      v = 0 || v = 1 || v = 2 || v = 4 || v = 5 || v = 7 || v = 8 || v = 9 || v = 255
  | .volume, v => 0 ≤ v && v ≤ 1
  | .responseCode, v => 0 ≤ v && v ≤ 24

/-- One declared field: member name, wire type, and the enum class of the
member's annotation when that annotation is an `Enum` subclass. -/
structure FieldSpec where
  name : String
  ftype : FieldType
  enum : Option PyEnum := none
deriving DecidableEq, Repr

/-- A runtime field value: integers (also backing enum members), floats
(as rationals), byte strings, and text strings (as code-point lists). -/
inductive Value
  | vint (i : ℤ)
  | vfloat (q : ℚ)
  | vbytes (bs : List ℕ)
  | vstr (cs : List ℕ)
deriving DecidableEq, Repr

/-- Does `EnumClass(i)` succeed for the (optional) enum class of a field. -/
def enumOkOpt (en : Option PyEnum) (i : ℤ) : Bool :=
  match en with
  | none => true
  | some e => enumMem e i

/-- Is a value admissible for a field: matching kind, in the wire type's
range, a member of the field's enum class, and (for strings) encodable. -/
def fieldOk (f : FieldSpec) (v : Value) : Bool :=
  match f.ftype with
  | .UINT8 =>
    match v with
    | .vint i => 0 ≤ i && i < 256 && enumOkOpt f.enum i
    | _ => false
  | .UINT16 =>
    match v with
    | .vint i => 0 ≤ i && i < 65536 && enumOkOpt f.enum i
    | _ => false
  | .UINT32 =>
    match v with
    | .vint i => 0 ≤ i && i < 4294967296 && enumOkOpt f.enum i
    | _ => false
  | .INT8 =>
    match v with
    | .vint i => -128 ≤ i && i < 128 && enumOkOpt f.enum i
    | _ => false
  | .INT16 =>
    match v with
    | .vint i => -32768 ≤ i && i < 32768 && enumOkOpt f.enum i
    | _ => false
  | .INT32 =>
    match v with
    | .vint i => -2147483648 ≤ i && i < 2147483648 && enumOkOpt f.enum i
    | _ => false
  | .FLOAT =>
    match v with
    | .vfloat q =>
        (-(2147483648:ℤ) ≤ pyRound (q * 16777216) &&
          pyRound (q * 16777216) < 2147483648) && f.enum == none
    | _ => false
  | .BYTES =>
    match v with
    | .vbytes bs => bs.all (· < 256) && f.enum == none
    | _ => false
  | .STRZ =>
    match v with
    | .vstr cs => cs.all validCp && f.enum == none
    | _ => false
  | .STR =>
    match v with
    | .vstr cs => cs.all validCp && f.enum == none
    | _ => false

/-- All fields of a packet hold admissible values (and the value list has
the schema's length). -/
def fieldsOk : List FieldSpec → List Value → Bool
  | [], [] => true
  | f :: fs, v :: vs => fieldOk f v && fieldsOk fs vs
  | _, _ => false

/-- Encoding errors (`struct.error` / `ValueError` in the source). -/
inductive EncErr
  | rangeErr (field : String)
  | floatErr (field : String)
  | encodeErr (field : String)
  | shapeErr
deriving DecidableEq, Repr

/-- `BaseModel.to_writer` for one field: the bytes appended to the writer.
An `Enum` member is first replaced by its underlying `.value` (the model
already stores that integer). -/
def encodeField (f : FieldSpec) (v : Value) : Except EncErr (List ℕ) :=
  match f.ftype with
  | .UINT8 =>
    match v with
    | .vint i => if 0 ≤ i ∧ i < 256 then .ok [i.toNat] else .error (.rangeErr f.name)
    | _ => .error .shapeErr
  | .UINT16 =>
    match v with
    | .vint i =>
        if 0 ≤ i ∧ i < 65536 then .ok (encLE 2 i.toNat) else .error (.rangeErr f.name)
    | _ => .error .shapeErr
  | .UINT32 =>
    match v with
    | .vint i =>
        if 0 ≤ i ∧ i < 4294967296 then .ok (encLE 4 i.toNat)
        else .error (.rangeErr f.name)
    | _ => .error .shapeErr
  | .INT8 =>
    match v with
    | .vint i =>
        if -128 ≤ i ∧ i < 128 then .ok (encLEInt 1 i) else .error (.rangeErr f.name)
    | _ => .error .shapeErr
  | .INT16 =>
    match v with
    | .vint i =>
        if -32768 ≤ i ∧ i < 32768 then .ok (encLEInt 2 i) else .error (.rangeErr f.name)
    | _ => .error .shapeErr
  | .INT32 =>
    match v with
    | .vint i =>
        if -2147483648 ≤ i ∧ i < 2147483648 then .ok (encLEInt 4 i)
        else .error (.rangeErr f.name)
    | _ => .error .shapeErr
  | .FLOAT =>
    match v with
    | .vfloat q =>
      match float_to_s24 q with
      | .ok s => .ok (encLEInt 4 s)
      | .error _ => .error (.floatErr f.name)
    | _ => .error .shapeErr
  | .BYTES =>
    match v with
    | .vbytes bs => .ok bs
    | _ => .error .shapeErr
  | .STRZ =>
    match v with
    | .vstr cs =>
        if cs.all validCp then .ok (utf8Encode cs ++ [0]) else .error (.encodeErr f.name)
    | _ => .error .shapeErr
  | .STR =>
    match v with
    | .vstr cs =>
        if cs.all validCp then .ok (utf8Encode cs) else .error (.encodeErr f.name)
    | _ => .error .shapeErr

/-- `BaseModel.to_writer`: write all fields in declared order. -/
def encodeFields : List FieldSpec → List Value → Except EncErr (List ℕ)
  | [], [] => .ok []
  | f :: fs, v :: vs =>
    match encodeField f v with
    | .error e => .error e
    | .ok b =>
      match encodeFields fs vs with
      | .error e => .error e
      | .ok r => .ok (b ++ r)
  | _, _ => .error .shapeErr

/-- Decoding errors (`IndexError`/`ValueError` in the source). -/
inductive DecErr
  | bufferShort
  | utf8Err
  | enumErr (field : String)
deriving DecidableEq, Repr

/-- Read a `w`-byte unsigned little-endian quantity at `pos`
(`BinaryReader.read`), failing when the buffer is too short. -/
def readFixed (w : ℕ) (buf : List ℕ) (pos : ℕ) : Except DecErr ℕ :=
  if pos + w ≤ buf.length then .ok (readLE ((buf.drop pos).take w))
  else .error .bufferShort

/-- `BaseModel.from_reader` for one field: the decoded value and the new
reader position.  `BYTES` takes the rest of the buffer, `STRZ` everything up
to (excluding) the very last buffer byte, `STR` the rest as UTF-8; none of
the three advances the reader. -/
def decodeField (f : FieldSpec) (buf : List ℕ) (pos : ℕ) :
    Except DecErr (Value × ℕ) :=
  match f.ftype with
  | .UINT8 =>
    match readFixed 1 buf pos with
    | .error e => .error e
    | .ok n => .ok (.vint n, pos + 1)
  | .UINT16 =>
    match readFixed 2 buf pos with
    | .error e => .error e
    | .ok n => .ok (.vint n, pos + 2)
  | .UINT32 =>
    match readFixed 4 buf pos with
    | .error e => .error e
    | .ok n => .ok (.vint n, pos + 4)
  | .INT8 =>
    match readFixed 1 buf pos with
    | .error e => .error e
    | .ok _ => .ok (.vint (decodeSigned 1 ((buf.drop pos).take 1)), pos + 1)
  | .INT16 =>
    match readFixed 2 buf pos with
    | .error e => .error e
    | .ok _ => .ok (.vint (decodeSigned 2 ((buf.drop pos).take 2)), pos + 2)
  | .INT32 =>
    match readFixed 4 buf pos with
    | .error e => .error e
    | .ok _ => .ok (.vint (decodeSigned 4 ((buf.drop pos).take 4)), pos + 4)
  | .FLOAT =>
    match readFixed 4 buf pos with
    | .error e => .error e
    | .ok _ => .ok (.vfloat (s24_to_float (decodeSigned 4 ((buf.drop pos).take 4))), pos + 4)
  | .BYTES => .ok (.vbytes (buf.drop pos), pos)
  | .STRZ =>
      match utf8Decode (buf.dropLast.drop pos) with
      | some cs => .ok (.vstr cs, pos)
      | none => .error .utf8Err
  | .STR =>
      match utf8Decode (buf.drop pos) with
      | some cs => .ok (.vstr cs, pos)
      | none => .error .utf8Err

/-- `field_info.type(value)` on decode: an `Enum`-annotated member is rebuilt
from the raw integer, failing when it is not a member of the class. -/
def enumRestore (f : FieldSpec) (v : Value) : Except DecErr Value :=
  match f.enum with
  | none => .ok v
  | some e =>
    match v with
    | .vint i => if enumMem e i then .ok (.vint i) else .error (.enumErr f.name)
    | _ => .error (.enumErr f.name)

/-- `BaseModel.from_reader`: parse all fields in declared order against one
shared reader over `buf` starting at `pos`. -/
def fromReaderGo : List FieldSpec → List ℕ → ℕ → Except DecErr (List Value)
  | [], _, _ => .ok []
  | f :: fs, buf, pos =>
    match decodeField f buf pos with
    | .error e => .error e
    | .ok (v, pos1) =>
      match enumRestore f v with
      | .error e => .error e
      | .ok v1 =>
        match fromReaderGo fs buf pos1 with
        | .error e => .error e
        | .ok rest => .ok (v1 :: rest)

/-- `BaseModel.from_bytes`. -/
def fromBytesModel (fields : List FieldSpec) (buf : List ℕ) :
    Except DecErr (List Value) :=
  fromReaderGo fields buf 0

/-- `BaseModel.get_size` for one field. -/
def fieldSize (f : FieldSpec) (v : Value) : ℕ :=
  match f.ftype with
  | .UINT8 => 1
  | .INT8 => 1
  | .UINT16 => 2
  | .INT16 => 2
  | .UINT32 => 4
  | .INT32 => 4
  | .FLOAT => 4
  | .BYTES => match v with | .vbytes bs => bs.length | _ => 0
  | .STRZ => match v with | .vstr cs => cs.length + 1 | _ => 0
  | .STR => match v with | .vstr cs => cs.length | _ => 0

/-- `BaseModel.get_size` / `__len__`: sum over all fields in order. -/
def getSize (fields : List FieldSpec) (values : List Value) : ℕ :=
  (List.zipWith fieldSize fields values).sum

/-- Only the last field of a schema may be variable-length. -/
def isVar (t : FieldType) : Bool :=
  match t with
  | .BYTES | .STRZ | .STR => true
  | _ => false

def lastOnlyVar : List FieldSpec → Bool
  | [] => true
  | [_] => true
  | f :: fs => !isVar f.ftype && lastOnlyVar fs

/-! ## Codec round-trip -/

/-- The value obtained after an encode/decode round trip: identical for all
wire types except `FLOAT`, which goes through the fixed-point grid. -/
def rtValue (f : FieldSpec) (v : Value) : Value :=
  match f.ftype with
  | .FLOAT =>
    match v with
    | .vfloat q => .vfloat (s24_to_float (pyRound (q * 16777216)))
    | _ => v
  | _ => v

theorem window_eq (pre b r : List ℕ) {w : ℕ} (hb : b.length = w) :
    ((pre ++ (b ++ r)).drop pre.length).take w = b := by
  rw [List.drop_left, ← hb, List.take_left]

theorem readFixed_ok (pre b r : List ℕ) {w : ℕ} (hb : b.length = w) :
    readFixed w (pre ++ (b ++ r)) pre.length = .ok (readLE b) := by
  unfold readFixed
  rw [if_pos (by simp only [List.length_append]; omega), window_eq pre b r hb]

theorem encodeFields_cons_inv {f : FieldSpec} {fs : List FieldSpec} {v : Value}
    {vs : List Value} {enc : List ℕ}
    (h : encodeFields (f :: fs) (v :: vs) = .ok enc) :
    ∃ b r, encodeField f v = .ok b ∧ encodeFields fs vs = .ok r ∧ enc = b ++ r := by
  simp only [encodeFields] at h
  cases hb : encodeField f v with
  | error e => rw [hb] at h; cases h
  | ok b =>
    rw [hb] at h
    cases hr : encodeFields fs vs with
    | error e => rw [hr] at h; cases h
    | ok r =>
      rw [hr] at h
      cases h
      exact ⟨b, r, rfl, rfl, rfl⟩

theorem enumRestore_vint {nm : String} {ft : FieldType} {en : Option PyEnum} {i : ℤ}
    (h : enumOkOpt en i = true) :
    enumRestore ⟨nm, ft, en⟩ (.vint i) = .ok (.vint i) := by
  unfold enumRestore
  cases en with
  | none => rfl
  | some e =>
    simp only [enumOkOpt] at h
    simp only
    rw [if_pos h]

set_option maxHeartbeats 3000000 in
/-- Master round-trip lemma: parsing the bytes written for a packet, after an
arbitrary already-consumed prefix, recovers the field values up to the
fixed-point float grid. -/
theorem fromReader_encodeFields :
    ∀ (fields : List FieldSpec) (values : List Value) (pre enc : List ℕ),
      lastOnlyVar fields = true → fieldsOk fields values = true →
      encodeFields fields values = .ok enc →
      fromReaderGo fields (pre ++ enc) pre.length =
        .ok (List.zipWith rtValue fields values) := by
  intro fields
  induction fields with
  | nil =>
    intro values pre enc _ hok henc
    cases values with
    | nil =>
      cases henc
      simp [fromReaderGo]
    | cons v vs => simp [fieldsOk] at hok
  | cons f fs ih =>
    intro values pre enc hvar hok henc
    cases values with
    | nil => simp [fieldsOk] at hok
    | cons v vs =>
      simp only [fieldsOk, Bool.and_eq_true] at hok
      obtain ⟨hfv, hrest⟩ := hok
      obtain ⟨b, r, hb, hr, rfl⟩ := encodeFields_cons_inv henc
      have hvar' : lastOnlyVar fs = true := by
        cases fs with
        | nil => rfl
        | cons g gs =>
          simp only [lastOnlyVar, Bool.and_eq_true] at hvar
          exact hvar.2
      have hne : isVar f.ftype = true → fs = [] := by
        intro hv
        cases fs with
        | nil => rfl
        | cons g gs =>
          simp only [lastOnlyVar, Bool.and_eq_true, Bool.not_eq_true'] at hvar
          rw [hvar.1] at hv
          cases hv
      obtain ⟨nm, ft, en⟩ := f
      cases ft with
      | UINT8 =>
        cases v with
        | vint i =>
          simp only [fieldOk, Bool.and_eq_true, decide_eq_true_eq] at hfv
          simp only [encodeField] at hb
          rw [if_pos ⟨hfv.1.1, hfv.1.2⟩] at hb
          cases hb
          simp only [fromReaderGo, decodeField,
            readFixed_ok pre [i.toNat] r (w := 1) rfl]
          have hv1 : readLE [i.toNat] = i.toNat := by simp [readLE]
          rw [hv1, show ((i.toNat : ℤ)) = i from by omega, enumRestore_vint hfv.2]
          have hih := ih vs (pre ++ [i.toNat]) r hvar' hrest hr
          simp only [List.length_append, List.length_cons, List.length_nil,
            List.append_assoc, Nat.zero_add] at hih ⊢
          rw [hih]
          simp [rtValue]
        | vfloat q => simp [fieldOk] at hfv
        | vbytes bs => simp [fieldOk] at hfv
        | vstr cs => simp [fieldOk] at hfv
      | UINT16 =>
        cases v with
        | vint i =>
          simp only [fieldOk, Bool.and_eq_true, decide_eq_true_eq] at hfv
          simp only [encodeField] at hb
          rw [if_pos ⟨hfv.1.1, hfv.1.2⟩] at hb
          cases hb
          simp only [fromReaderGo, decodeField,
            readFixed_ok pre (encLE 2 i.toNat) r (encLE_length 2 i.toNat)]
          rw [readLE_encLE (show i.toNat < 256 ^ 2 from by norm_num; omega)]
          rw [show ((i.toNat : ℤ)) = i from by omega, enumRestore_vint hfv.2]
          have hih := ih vs (pre ++ encLE 2 i.toNat) r hvar' hrest hr
          simp only [List.length_append, encLE_length, List.append_assoc] at hih ⊢
          rw [hih]
          simp [rtValue]
        | vfloat q => simp [fieldOk] at hfv
        | vbytes bs => simp [fieldOk] at hfv
        | vstr cs => simp [fieldOk] at hfv
      | UINT32 =>
        cases v with
        | vint i =>
          simp only [fieldOk, Bool.and_eq_true, decide_eq_true_eq] at hfv
          simp only [encodeField] at hb
          rw [if_pos ⟨hfv.1.1, hfv.1.2⟩] at hb
          cases hb
          simp only [fromReaderGo, decodeField,
            readFixed_ok pre (encLE 4 i.toNat) r (encLE_length 4 i.toNat)]
          rw [readLE_encLE (show i.toNat < 256 ^ 4 from by norm_num; omega)]
          rw [show ((i.toNat : ℤ)) = i from by omega, enumRestore_vint hfv.2]
          have hih := ih vs (pre ++ encLE 4 i.toNat) r hvar' hrest hr
          simp only [List.length_append, encLE_length, List.append_assoc] at hih ⊢
          rw [hih]
          simp [rtValue]
        | vfloat q => simp [fieldOk] at hfv
        | vbytes bs => simp [fieldOk] at hfv
        | vstr cs => simp [fieldOk] at hfv
      | INT8 =>
        cases v with
        | vint i =>
          simp only [fieldOk, Bool.and_eq_true, decide_eq_true_eq] at hfv
          simp only [encodeField] at hb
          rw [if_pos ⟨hfv.1.1, hfv.1.2⟩] at hb
          cases hb
          have hlen : (encLEInt 1 i).length = 1 := encLE_length 1 _
          simp only [fromReaderGo, decodeField, readFixed_ok pre (encLEInt 1 i) r hlen]
          rw [window_eq pre (encLEInt 1 i) r hlen]
          rw [decodeSigned_encLEInt (by norm_num)
            (show -(2 ^ (8 * 1 - 1)) ≤ i from by have := hfv.1.1; norm_num; omega)
            (show i < 2 ^ (8 * 1 - 1) from by have := hfv.1.2; norm_num; omega)]
          rw [enumRestore_vint hfv.2]
          have hih := ih vs (pre ++ encLEInt 1 i) r hvar' hrest hr
          simp only [List.length_append, hlen, List.append_assoc] at hih ⊢
          rw [hih]
          simp [rtValue]
        | vfloat q => simp [fieldOk] at hfv
        | vbytes bs => simp [fieldOk] at hfv
        | vstr cs => simp [fieldOk] at hfv
      | INT16 =>
        cases v with
        | vint i =>
          simp only [fieldOk, Bool.and_eq_true, decide_eq_true_eq] at hfv
          simp only [encodeField] at hb
          rw [if_pos ⟨hfv.1.1, hfv.1.2⟩] at hb
          cases hb
          have hlen : (encLEInt 2 i).length = 2 := encLE_length 2 _
          simp only [fromReaderGo, decodeField, readFixed_ok pre (encLEInt 2 i) r hlen]
          rw [window_eq pre (encLEInt 2 i) r hlen]
          rw [decodeSigned_encLEInt (by norm_num)
            (show -(2 ^ (8 * 2 - 1)) ≤ i from by have := hfv.1.1; norm_num; omega)
            (show i < 2 ^ (8 * 2 - 1) from by have := hfv.1.2; norm_num; omega)]
          rw [enumRestore_vint hfv.2]
          have hih := ih vs (pre ++ encLEInt 2 i) r hvar' hrest hr
          simp only [List.length_append, hlen, List.append_assoc] at hih ⊢
          rw [hih]
          simp [rtValue]
        | vfloat q => simp [fieldOk] at hfv
        | vbytes bs => simp [fieldOk] at hfv
        | vstr cs => simp [fieldOk] at hfv
      | INT32 =>
        cases v with
        | vint i =>
          simp only [fieldOk, Bool.and_eq_true, decide_eq_true_eq] at hfv
          simp only [encodeField] at hb
          rw [if_pos ⟨hfv.1.1, hfv.1.2⟩] at hb
          cases hb
          have hlen : (encLEInt 4 i).length = 4 := encLE_length 4 _
          simp only [fromReaderGo, decodeField, readFixed_ok pre (encLEInt 4 i) r hlen]
          rw [window_eq pre (encLEInt 4 i) r hlen]
          rw [decodeSigned_encLEInt (by norm_num)
            (show -(2 ^ (8 * 4 - 1)) ≤ i from by have := hfv.1.1; norm_num; omega)
            (show i < 2 ^ (8 * 4 - 1) from by have := hfv.1.2; norm_num; omega)]
          rw [enumRestore_vint hfv.2]
          have hih := ih vs (pre ++ encLEInt 4 i) r hvar' hrest hr
          simp only [List.length_append, hlen, List.append_assoc] at hih ⊢
          rw [hih]
          simp [rtValue]
        | vfloat q => simp [fieldOk] at hfv
        | vbytes bs => simp [fieldOk] at hfv
        | vstr cs => simp [fieldOk] at hfv
      | FLOAT =>
        cases v with
        | vfloat q =>
          simp only [fieldOk, Bool.and_eq_true, decide_eq_true_eq, beq_iff_eq] at hfv
          obtain ⟨⟨hqlo, hqhi⟩, hen⟩ := hfv
          subst hen
          simp only [encodeField] at hb
          have hs : float_to_s24 q = .ok (pyRound (q * 16777216)) :=
            (float_to_s24_ok_iff q _).mpr ⟨rfl, by norm_num; omega, by norm_num; omega⟩
          rw [hs] at hb
          cases hb
          have hlen : (encLEInt 4 (pyRound (q * 16777216))).length = 4 := encLE_length 4 _
          simp only [fromReaderGo, decodeField,
            readFixed_ok pre (encLEInt 4 (pyRound (q * 16777216))) r hlen]
          rw [window_eq pre (encLEInt 4 (pyRound (q * 16777216))) r hlen]
          rw [decodeSigned_encLEInt (by norm_num)
            (show -(2 ^ (8 * 4 - 1)) ≤ pyRound (q * 16777216) from by norm_num; omega)
            (show pyRound (q * 16777216) < 2 ^ (8 * 4 - 1) from by norm_num; omega)]
          simp only [enumRestore]
          have hih := ih vs (pre ++ encLEInt 4 (pyRound (q * 16777216))) r hvar' hrest hr
          simp only [List.length_append, hlen, List.append_assoc] at hih ⊢
          rw [hih]
          simp [rtValue]
        | vint i => simp [fieldOk] at hfv
        | vbytes bs => simp [fieldOk] at hfv
        | vstr cs => simp [fieldOk] at hfv
      | BYTES =>
        have hfs : fs = [] := hne rfl
        subst hfs
        cases vs with
        | cons v2 vs2 => simp [fieldsOk] at hrest
        | nil =>
          simp only [encodeFields] at hr
          cases hr
          cases v with
          | vbytes bs =>
            simp only [fieldOk, Bool.and_eq_true, beq_iff_eq] at hfv
            obtain ⟨hbs, hen⟩ := hfv
            subst hen
            simp only [encodeField] at hb
            cases hb
            simp only [fromReaderGo, decodeField, List.append_nil, List.drop_left]
            simp [enumRestore, rtValue]
          | vint i => simp [fieldOk] at hfv
          | vfloat q => simp [fieldOk] at hfv
          | vstr cs => simp [fieldOk] at hfv
      | STRZ =>
        have hfs : fs = [] := hne rfl
        subst hfs
        cases vs with
        | cons v2 vs2 => simp [fieldsOk] at hrest
        | nil =>
          simp only [encodeFields] at hr
          cases hr
          cases v with
          | vstr cs =>
            simp only [fieldOk, Bool.and_eq_true, beq_iff_eq] at hfv
            obtain ⟨hcs, hen⟩ := hfv
            subst hen
            simp only [encodeField] at hb
            rw [if_pos hcs] at hb
            cases hb
            simp only [fromReaderGo, decodeField, List.append_nil]
            have hdl : (pre ++ (utf8Encode cs ++ [0])).dropLast = pre ++ utf8Encode cs := by
              rw [← List.append_assoc]
              exact List.dropLast_concat
            rw [hdl, List.drop_left, utf8Decode_utf8Encode hcs]
            simp [enumRestore, rtValue]
          | vint i => simp [fieldOk] at hfv
          | vfloat q => simp [fieldOk] at hfv
          | vbytes bs => simp [fieldOk] at hfv
      | STR =>
        have hfs : fs = [] := hne rfl
        subst hfs
        cases vs with
        | cons v2 vs2 => simp [fieldsOk] at hrest
        | nil =>
          simp only [encodeFields] at hr
          cases hr
          cases v with
          | vstr cs =>
            simp only [fieldOk, Bool.and_eq_true, beq_iff_eq] at hfv
            obtain ⟨hcs, hen⟩ := hfv
            subst hen
            simp only [encodeField] at hb
            rw [if_pos hcs] at hb
            cases hb
            simp only [fromReaderGo, decodeField, List.append_nil, List.drop_left]
            rw [utf8Decode_utf8Encode hcs]
            simp [enumRestore, rtValue]
          | vint i => simp [fieldOk] at hfv
          | vfloat q => simp [fieldOk] at hfv
          | vbytes bs => simp [fieldOk] at hfv

/-! ## Control-service packet catalog (`cts_encoder.py`) -/

def PacketRequest_MemRead : List FieldSpec :=
  [⟨"message_id", .UINT16, none⟩, ⟨"address", .UINT32, none⟩, ⟨"length", .UINT16, none⟩]

def PacketResponse_MemRead : List FieldSpec :=
  [⟨"message_id", .UINT16, none⟩, ⟨"result", .UINT8, some .ioResult⟩,
   ⟨"length", .UINT16, none⟩, ⟨"data", .BYTES, none⟩]

def PacketRequest_MemWrite : List FieldSpec :=
  [⟨"message_id", .UINT16, none⟩, ⟨"address", .UINT32, none⟩,
   ⟨"length", .UINT16, none⟩, ⟨"data", .BYTES, none⟩]

def PacketResponse_MemWrite : List FieldSpec :=
  [⟨"message_id", .UINT16, none⟩, ⟨"result", .UINT8, some .ioResult⟩]

def PacketRequest_MoveStraight : List FieldSpec :=
  [⟨"message_id", .UINT16, none⟩, ⟨"request_id", .UINT32, none⟩,
   ⟨"distance_m", .FLOAT, none⟩, ⟨"speed_mps", .FLOAT, none⟩]

def PacketResponse_MoveStraight : List FieldSpec :=
  [⟨"message_id", .UINT16, none⟩, ⟨"request_id", .UINT32, none⟩]

def PacketRequest_Rotate : List FieldSpec :=
  [⟨"message_id", .UINT16, none⟩, ⟨"request_id", .UINT32, none⟩,
   ⟨"angle_rad", .FLOAT, none⟩, ⟨"speed_radps", .FLOAT, none⟩]

def PacketResponse_Rotate : List FieldSpec :=
  [⟨"message_id", .UINT16, none⟩, ⟨"request_id", .UINT32, none⟩]

def PacketRequest_Velocity : List FieldSpec :=
  [⟨"message_id", .UINT16, none⟩, ⟨"request_id", .UINT32, none⟩,
   ⟨"linear_speed_mps", .FLOAT, none⟩, ⟨"angular_speed_radps", .FLOAT, none⟩,
   ⟨"duration_ms", .INT32, none⟩]

def PacketResponse_Velocity : List FieldSpec :=
  [⟨"message_id", .UINT16, none⟩, ⟨"request_id", .UINT32, none⟩]

def PacketRequest_LineNavigation : List FieldSpec :=
  [⟨"message_id", .UINT16, none⟩, ⟨"request_id", .UINT32, none⟩,
   ⟨"direction", .UINT8, some .intersectionDirection⟩,
   ⟨"action", .UINT8, some .lineNavigationAction⟩]

def PacketResponse_LineNavigation : List FieldSpec :=
  [⟨"message_id", .UINT16, none⟩, ⟨"request_id", .UINT32, none⟩]

def PacketRequest_ExecuteFile : List FieldSpec :=
  [⟨"message_id", .UINT16, none⟩, ⟨"request_id", .UINT32, none⟩,
   ⟨"path", .STRZ, none⟩]

def PacketResponse_ExecuteFile : List FieldSpec :=
  [⟨"message_id", .UINT16, none⟩, ⟨"request_id", .UINT32, none⟩]

def PacketRequest_SetLED : List FieldSpec :=
  [⟨"message_id", .UINT16, none⟩, ⟨"led_mask", .UINT16, some .lights⟩,
   ⟨"red", .UINT8, none⟩, ⟨"green", .UINT8, none⟩, ⟨"blue", .UINT8, none⟩,
   ⟨"alpha", .UINT8, none⟩]

def PacketResponse_SetLED : List FieldSpec :=
  [⟨"message_id", .UINT16, none⟩, ⟨"call_status", .UINT8, some .callStatus⟩]

def PacketRequest_Calibrate : List FieldSpec :=
  [⟨"message_id", .UINT16, none⟩, ⟨"type", .UINT8, some .calibrationType⟩]

def PacketResponse_Calibrate : List FieldSpec :=
  [⟨"message_id", .UINT16, none⟩, ⟨"call_status", .UINT8, some .callStatus⟩]

def PacketRequest_TurnOff : List FieldSpec :=
  [⟨"message_id", .UINT16, none⟩]

def PacketResponse_TurnOff : List FieldSpec :=
  [⟨"message_id", .UINT16, none⟩, ⟨"call_status", .UINT8, some .callStatus⟩]

def PacketRequest_UpdateFirmware : List FieldSpec :=
  [⟨"message_id", .UINT16, none⟩, ⟨"target", .UINT8, some .firmwareUpdateTarget⟩,
   ⟨"source", .UINT8, some .firmwareUpdateSource⟩]

def PacketResponse_UpdateFirmware : List FieldSpec :=
  [⟨"message_id", .UINT16, none⟩, ⟨"call_status", .UINT8, some .callStatus⟩]

def PacketRequest_PlayTone : List FieldSpec :=
  [⟨"message_id", .UINT16, none⟩, ⟨"request_id", .UINT32, none⟩,
   ⟨"frequency_hz", .UINT16, none⟩, ⟨"duration_ms", .UINT16, none⟩,
   ⟨"volume", .UINT8, none⟩]

def PacketResponse_PlayTone : List FieldSpec :=
  [⟨"message_id", .UINT16, none⟩, ⟨"request_id", .UINT32, none⟩]

def PacketRequest_StopExecution : List FieldSpec :=
  [⟨"message_id", .UINT16, none⟩, ⟨"request_id", .UINT32, none⟩]

def PacketResponse_StopExecution : List FieldSpec :=
  [⟨"message_id", .UINT16, none⟩, ⟨"request_id", .UINT32, none⟩]

def PacketRequest_WatcherSetup : List FieldSpec :=
  [⟨"message_id", .UINT16, none⟩, ⟨"watcher_id", .UINT8, none⟩,
   ⟨"flags", .UINT8, some .watcherFlags⟩,
   ⟨"notification_period_min_ms", .UINT16, none⟩,
   ⟨"notification_period_max_ms", .UINT16, none⟩]

def PacketResponse_WatcherSetup : List FieldSpec :=
  [⟨"message_id", .UINT16, none⟩, ⟨"call_status", .UINT8, some .callStatus⟩]

def PacketRequest_WatcherRegionSetup : List FieldSpec :=
  [⟨"message_id", .UINT16, none⟩, ⟨"watcher_id", .UINT8, none⟩,
   ⟨"region_id", .UINT8, none⟩, ⟨"address", .UINT16, none⟩,
   ⟨"size", .UINT8, none⟩, ⟨"flags", .UINT8, some .watcherRegionFlags⟩]

def PacketResponse_WatcherRegionSetup : List FieldSpec :=
  [⟨"message_id", .UINT16, none⟩, ⟨"call_status", .UINT8, some .callStatus⟩]

def PacketRequest_LongRPCExtensionExecute : List FieldSpec :=
  [⟨"message_id", .UINT16, none⟩, ⟨"data_length", .UINT16, none⟩,
   ⟨"data_crc", .UINT32, none⟩]

def PacketResponse_LongRPCExtensionExecute : List FieldSpec :=
  [⟨"message_id", .UINT16, none⟩, ⟨"call_status", .UINT8, some .callStatus⟩,
   ⟨"data_length", .UINT16, none⟩, ⟨"data_crc", .UINT32, none⟩]

def PacketRequest_SetRNGSeed : List FieldSpec :=
  [⟨"message_id", .UINT16, none⟩, ⟨"seed", .UINT32, none⟩]

def PacketResponse_SetRNGSeed : List FieldSpec :=
  [⟨"message_id", .UINT16, none⟩, ⟨"call_status", .UINT8, some .callStatus⟩]

def PacketRequest_SensorsLogging : List FieldSpec :=
  [⟨"message_id", .UINT16, none⟩, ⟨"state", .UINT8, some .loggingState⟩]

def PacketResponse_SensorsLogging : List FieldSpec :=
  [⟨"message_id", .UINT16, none⟩, ⟨"call_status", .UINT8, some .callStatus⟩]

def PacketRequest_MemoryTest : List FieldSpec :=
  [⟨"message_id", .UINT16, none⟩, ⟨"test_type", .UINT8, some .memoryTestType⟩]

def PacketResponse_MemoryTest : List FieldSpec :=
  [⟨"message_id", .UINT16, none⟩, ⟨"call_status", .UINT8, some .callStatus⟩]

def PacketEvent_PreciseMovementExecutionUpdate : List FieldSpec :=
  [⟨"message_id", .UINT16, none⟩, ⟨"request_id", .UINT32, none⟩,
   ⟨"execution_state", .UINT8, some .executionState⟩,
   ⟨"overshot_time", .FLOAT, none⟩, ⟨"overshot_distance_m", .FLOAT, none⟩,
   ⟨"max_speed_mps", .FLOAT, none⟩]

def PacketEvent_LineNavigationExecutionUpdate : List FieldSpec :=
  [⟨"message_id", .UINT16, none⟩, ⟨"request_id", .UINT32, none⟩,
   ⟨"execution_state", .UINT8, some .executionState⟩,
   ⟨"intersection_direction", .INT8, some .intersectionDirection⟩]

def PacketEvent_Shutdown : List FieldSpec :=
  [⟨"message_id", .UINT16, none⟩, ⟨"source", .UINT8, some .shutdownSource⟩]

def PacketEvent_AudioExecutionState : List FieldSpec :=
  [⟨"message_id", .UINT16, none⟩, ⟨"request_id", .UINT32, none⟩,
   ⟨"execution_state", .UINT8, some .executionState⟩]

def PacketEvent_WatcherDirty : List FieldSpec :=
  [⟨"message_id", .UINT16, none⟩, ⟨"watcher_id", .UINT8, none⟩,
   ⟨"data", .BYTES, none⟩]

def PacketEvent_CalibrationStatus : List FieldSpec :=
  [⟨"message_id", .UINT16, none⟩, ⟨"status", .UINT8, some .calibrationResult⟩]

/-- Note: the `fields` member is annotated `int` in the source, so no enum
conversion applies to it on decode. -/
def PacketEvent_MemoryTestStatus : List FieldSpec :=
  [⟨"message_id", .UINT16, none⟩, ⟨"execution_state", .UINT8, some .executionState⟩,
   ⟨"progress", .UINT8, none⟩, ⟨"flash_id", .UINT8, none⟩,
   ⟨"address", .UINT32, none⟩, ⟨"fields", .UINT8, none⟩]

def PacketEvent_ModuleError : List FieldSpec :=
  [⟨"message_id", .UINT16, none⟩, ⟨"module_id", .UINT8, some .errorModuleID⟩,
   ⟨"error_code", .UINT8, none⟩]

def PacketEvent_VirtualMachineExecutionState : List FieldSpec :=
  [⟨"message_id", .UINT16, none⟩, ⟨"request_id", .UINT32, none⟩,
   ⟨"execution_state", .UINT8, some .executionState⟩]

def PacketEvent_VelocityExecutionState : List FieldSpec :=
  [⟨"message_id", .UINT16, none⟩, ⟨"request_id", .UINT32, none⟩,
   ⟨"execution_state", .UINT8, some .executionState⟩]

/-- `cts_encoder.MESSAGE_ID_TO_MODEL`. -/
def MESSAGE_ID_TO_MODEL : List (ℕ × List FieldSpec) :=
  [(1, PacketRequest_MemRead),
   (2, PacketResponse_MemRead),
   (3, PacketRequest_MemWrite),
   (4, PacketResponse_MemWrite),
   (100, PacketRequest_MoveStraight),
   (101, PacketResponse_MoveStraight),
   (102, PacketRequest_Rotate),
   (103, PacketResponse_Rotate),
   (104, PacketRequest_Velocity),
   (105, PacketResponse_Velocity),
   (106, PacketRequest_LineNavigation),
   (107, PacketResponse_LineNavigation),
   (108, PacketRequest_ExecuteFile),
   (109, PacketResponse_ExecuteFile),
   (110, PacketRequest_SetLED),
   (111, PacketResponse_SetLED),
   (112, PacketRequest_Calibrate),
   (113, PacketResponse_Calibrate),
   (114, PacketRequest_TurnOff),
   (115, PacketResponse_TurnOff),
   (116, PacketRequest_UpdateFirmware),
   (117, PacketResponse_UpdateFirmware),
   (118, PacketRequest_PlayTone),
   (119, PacketResponse_PlayTone),
   (120, PacketRequest_StopExecution),
   (121, PacketResponse_StopExecution),
   (122, PacketRequest_WatcherSetup),
   (123, PacketResponse_WatcherSetup),
   (124, PacketRequest_WatcherRegionSetup),
   (125, PacketResponse_WatcherRegionSetup),
   (126, PacketRequest_LongRPCExtensionExecute),
   (127, PacketResponse_LongRPCExtensionExecute),
   (130, PacketRequest_SetRNGSeed),
   (131, PacketResponse_SetRNGSeed),
   (132, PacketRequest_SensorsLogging),
   (133, PacketResponse_SensorsLogging),
   (134, PacketRequest_MemoryTest),
   (135, PacketResponse_MemoryTest),
   (256, PacketEvent_PreciseMovementExecutionUpdate),
   (257, PacketEvent_LineNavigationExecutionUpdate),
   (258, PacketEvent_Shutdown),
   (259, PacketEvent_AudioExecutionState),
   (260, PacketEvent_WatcherDirty),
   (261, PacketEvent_CalibrationStatus),
   (262, PacketEvent_MemoryTestStatus),
   (263, PacketEvent_ModuleError),
   (264, PacketEvent_VirtualMachineExecutionState),
   (266, PacketEvent_VelocityExecutionState)]

/-! ## File-transfer-service packet catalog (`fts_encoder.py`) -/

def Packet_UnexpectedPacket : List FieldSpec :=
  [⟨"command", .UINT8, none⟩, ⟨"response_code", .UINT8, some .responseCode⟩]

def PacketRequest_VolumeSize : List FieldSpec :=
  [⟨"command", .UINT8, none⟩, ⟨"volume", .UINT8, some .volume⟩]

def PacketResponse_VolumeSize : List FieldSpec :=
  [⟨"command", .UINT8, none⟩, ⟨"response_code", .UINT8, some .responseCode⟩,
   ⟨"volume_size", .UINT32, none⟩, ⟨"free_size", .UINT32, none⟩]

def PacketRequest_FormatFileSystem : List FieldSpec :=
  [⟨"command", .UINT8, none⟩]

def PacketResponse_FormatFileSystem : List FieldSpec :=
  [⟨"command", .UINT8, none⟩]

def PacketRequest_DirectoryListingPath : List FieldSpec :=
  [⟨"command", .UINT8, none⟩, ⟨"flags", .UINT8, none⟩, ⟨"path", .STR, none⟩]

def PacketResponse_DirectoryListingPath : List FieldSpec :=
  [⟨"command", .UINT8, none⟩, ⟨"response_code", .UINT8, some .responseCode⟩,
   ⟨"attributes", .UINT8, none⟩, ⟨"file_size", .UINT32, none⟩,
   ⟨"file_crc", .UINT32, none⟩, ⟨"name", .STR, none⟩]

def PacketRequest_DirectoryListing : List FieldSpec :=
  [⟨"command", .UINT8, none⟩]

def PacketResponse_DirectoryListing : List FieldSpec :=
  [⟨"command", .UINT8, none⟩]

def PacketRequest_MakeDirectory : List FieldSpec :=
  [⟨"command", .UINT8, none⟩, ⟨"path", .STR, none⟩]

def PacketResponse_MakeDirectory : List FieldSpec :=
  [⟨"command", .UINT8, none⟩, ⟨"response_code", .UINT8, some .responseCode⟩]

def PacketRequest_FileInfoPath : List FieldSpec :=
  [⟨"command", .UINT8, none⟩, ⟨"path", .STR, none⟩]

def PacketResponse_FileInfoPath : List FieldSpec :=
  [⟨"command", .UINT8, none⟩, ⟨"response_code", .UINT8, some .responseCode⟩,
   ⟨"flags", .UINT8, none⟩, ⟨"file_size", .UINT32, none⟩,
   ⟨"file_crc", .UINT32, none⟩]

def PacketRequest_FileInfo : List FieldSpec :=
  [⟨"command", .UINT8, none⟩]

def PacketResponse_FileInfo : List FieldSpec :=
  [⟨"command", .UINT8, none⟩]

def PacketRequest_DeleteFilePath : List FieldSpec :=
  [⟨"command", .UINT8, none⟩, ⟨"path", .STR, none⟩]

def PacketRequest_DeleteFile : List FieldSpec :=
  [⟨"command", .UINT8, none⟩, ⟨"file_type", .UINT8, none⟩,
   ⟨"file_name", .STR, none⟩]

def PacketResponse_DeleteFile : List FieldSpec :=
  [⟨"command", .UINT8, none⟩, ⟨"response_code", .UINT8, some .responseCode⟩]

def PacketRequest_UploadFilePathStart : List FieldSpec :=
  [⟨"command", .UINT8, none⟩, ⟨"file_size", .UINT32, none⟩,
   ⟨"file_crc", .UINT32, none⟩, ⟨"packets_in_block", .UINT8, none⟩,
   ⟨"path", .STR, none⟩]

def PacketRequest_UploadStart : List FieldSpec :=
  [⟨"command", .UINT8, none⟩, ⟨"file_type", .UINT8, none⟩,
   ⟨"file_name0", .UINT8, none⟩, ⟨"file_name1", .UINT8, none⟩,
   ⟨"file_name2", .UINT8, none⟩, ⟨"file_name3", .UINT8, none⟩,
   ⟨"file_name4", .UINT8, none⟩, ⟨"file_name5", .UINT8, none⟩,
   ⟨"file_name6", .UINT8, none⟩, ⟨"file_name7", .UINT8, none⟩,
   ⟨"file_crc", .UINT32, none⟩, ⟨"file_size", .UINT32, none⟩,
   ⟨"packets_in_block", .UINT8, none⟩]

def PacketResponse_UploadStart2 : List FieldSpec :=
  [⟨"command", .UINT8, none⟩, ⟨"response_code", .UINT8, some .responseCode⟩]

def PacketResponse_UploadStart : List FieldSpec :=
  [⟨"command", .UINT8, none⟩, ⟨"response_code", .UINT8, some .responseCode⟩,
   ⟨"start_block", .UINT32, none⟩]

def PacketRequest_UploadBlockStart : List FieldSpec :=
  [⟨"command", .UINT8, none⟩, ⟨"block_number", .UINT32, none⟩,
   ⟨"packets_in_block", .UINT8, none⟩, ⟨"block_crc", .UINT32, none⟩]

def PacketResponse_UploadBlockStart : List FieldSpec :=
  [⟨"command", .UINT8, none⟩, ⟨"response_code", .UINT8, some .responseCode⟩]

def PacketResponse_UploadBlockEnd : List FieldSpec :=
  [⟨"command", .UINT8, none⟩, ⟨"response_code", .UINT8, some .responseCode⟩]

def PacketResponse_UploadEnd : List FieldSpec :=
  [⟨"command", .UINT8, none⟩, ⟨"response_code", .UINT8, some .responseCode⟩]

def PacketRequest_DownloadFilePathStart : List FieldSpec :=
  [⟨"command", .UINT8, none⟩, ⟨"path", .STR, none⟩]

def PacketResponse_DownloadFilePathStart : List FieldSpec :=
  [⟨"command", .UINT8, none⟩, ⟨"response_code", .UINT8, some .responseCode⟩,
   ⟨"crc_ok", .UINT8, none⟩, ⟨"file_size", .UINT32, none⟩,
   ⟨"file_crc", .UINT32, none⟩]

def PacketRequest_DownloadStart : List FieldSpec :=
  [⟨"command", .UINT8, none⟩]

def PacketResponse_DownloadStart : List FieldSpec :=
  [⟨"command", .UINT8, none⟩]

def PacketRequest_DownloadBlockStart : List FieldSpec :=
  [⟨"command", .UINT8, none⟩, ⟨"address", .UINT32, none⟩,
   ⟨"length", .UINT32, none⟩]

def PacketResponse_DownloadBlockStart : List FieldSpec :=
  [⟨"command", .UINT8, none⟩, ⟨"response_code", .UINT8, some .responseCode⟩]

def PacketResponse_DownloadBlockEnd : List FieldSpec :=
  [⟨"command", .UINT8, none⟩, ⟨"response_code", .UINT8, some .responseCode⟩,
   ⟨"block_crc", .UINT32, none⟩]

def PacketRequest_DownloadEnd : List FieldSpec :=
  [⟨"command", .UINT8, none⟩]

def Packet_Fragment : List FieldSpec :=
  [⟨"command", .UINT8, none⟩, ⟨"index", .UINT8, none⟩, ⟨"data", .BYTES, none⟩]

def Packet_Fragment_Confirmation : List FieldSpec :=
  [⟨"command", .UINT8, none⟩, ⟨"index", .UINT8, none⟩]

/-- `fts_encoder.COMMAND_TO_MODEL`. -/
def COMMAND_TO_MODEL : List (ℕ × List FieldSpec) :=
  [(65, PacketRequest_DownloadFilePathStart),
   (66, PacketRequest_UploadBlockStart),
   (67, PacketRequest_DeleteFilePath),
   (68, PacketRequest_DeleteFile),
   (69, PacketRequest_DownloadEnd),
   (70, PacketRequest_MakeDirectory),
   (71, PacketRequest_FileInfoPath),
   (72, Packet_Fragment),
   (73, PacketRequest_DirectoryListingPath),
   (76, PacketRequest_DirectoryListing),
   (77, PacketRequest_FormatFileSystem),
   (79, PacketRequest_DownloadStart),
   (80, PacketRequest_UploadFilePathStart),
   (81, PacketRequest_DownloadBlockStart),
   (82, PacketRequest_FileInfo),
   (83, PacketRequest_VolumeSize),
   (84, PacketResponse_UploadStart2),
   (85, PacketRequest_UploadStart),
   (97, PacketResponse_DownloadFilePathStart),
   (98, PacketResponse_UploadBlockStart),
   (99, PacketResponse_DownloadBlockEnd),
   (100, PacketResponse_DeleteFile),
   (101, PacketResponse_UploadEnd),
   (102, PacketResponse_MakeDirectory),
   (103, PacketResponse_FileInfoPath),
   (104, Packet_Fragment_Confirmation),
   (105, PacketResponse_DirectoryListingPath),
   (108, PacketResponse_DirectoryListing),
   (109, PacketResponse_FormatFileSystem),
   (110, Packet_UnexpectedPacket),
   (111, PacketResponse_DownloadStart),
   (112, PacketResponse_UploadBlockEnd),
   (113, PacketResponse_DownloadBlockStart),
   (114, PacketResponse_FileInfo),
   (115, PacketResponse_VolumeSize),
   (117, PacketResponse_UploadStart)]

/-- `dict.get` on a registry. -/
def registryGet (reg : List (ℕ × List FieldSpec)) (id : ℕ) : Option (List FieldSpec) :=
  (reg.find? (fun p => p.1 == id)).map (·.2)

/-- Maximum packet size, bound by the Bluetooth MTU (both services). -/
def MAX_PACKET_SIZE : ℕ := 20

/-- Errors of the two `packet_from_bytes` functions. -/
inductive PktErr
  | tooShort
  | unknownCommand (id : ℕ)
  | decodeErr (e : DecErr)
deriving DecidableEq, Repr

/-- `cts_encoder.packet_from_bytes`: 2-byte little-endian discriminator. -/
def cts_packet_from_bytes (data : List ℕ) : Except PktErr (ℕ × List Value) :=
  if data.length < 2 then .error .tooShort
  else
    match registryGet MESSAGE_ID_TO_MODEL (readLE (data.take 2)) with
    | none => .error (.unknownCommand (readLE (data.take 2)))
    | some model =>
      match fromBytesModel model data with
      | .ok vs => .ok (readLE (data.take 2), vs)
      | .error e => .error (.decodeErr e)

/-- `fts_encoder.packet_from_bytes`: 1-byte discriminator. -/
def fts_packet_from_bytes (data : List ℕ) : Except PktErr (ℕ × List Value) :=
  if data.length < 1 then .error .tooShort
  else
    match registryGet COMMAND_TO_MODEL (readLE (data.take 1)) with
    | none => .error (.unknownCommand (readLE (data.take 1)))
    | some model =>
      match fromBytesModel model data with
      | .ok vs => .ok (readLE (data.take 1), vs)
      | .error e => .error (.decodeErr e)

/-! ## Registry-wide structural facts and round-trip corollaries -/

theorem registryGet_mem {reg : List (ℕ × List FieldSpec)} {n : ℕ} {s : List FieldSpec}
    (h : registryGet reg n = some s) : (n, s) ∈ reg := by
  unfold registryGet at h
  cases hf : reg.find? (fun p => p.1 == n) with
  | none => rw [hf] at h; cases h
  | some p =>
    rw [hf] at h
    cases h
    have hm := List.mem_of_find?_eq_some hf
    have hp := List.find?_some hf
    obtain ⟨p1, p2⟩ := p
    simp only [beq_iff_eq] at hp
    subst hp
    exact hm

theorem cts_registry_wf :
    ∀ p ∈ MESSAGE_ID_TO_MODEL,
      lastOnlyVar p.2 = true ∧ p.2.head?.map FieldSpec.ftype = some .UINT16 ∧
        p.1 < 65536 := by
  decide

theorem fts_registry_wf :
    ∀ p ∈ COMMAND_TO_MODEL,
      lastOnlyVar p.2 = true ∧ p.2.head?.map FieldSpec.ftype = some .UINT8 ∧
        p.1 < 256 := by
  decide

/-- `from_bytes` of `to_bytes` output, full-buffer version of the master
round-trip lemma. -/
theorem fromBytes_encode {s : List FieldSpec} {values : List Value} {enc : List ℕ}
    (hvar : lastOnlyVar s = true) (hok : fieldsOk s values = true)
    (henc : encodeFields s values = .ok enc) :
    fromBytesModel s enc = .ok (List.zipWith rtValue s values) := by
  have h := fromReader_encodeFields s values [] enc hvar hok henc
  simpa [fromBytesModel] using h

/-- A float value lying exactly on the 2^-24 fixed-point grid (always true
for non-FLOAT fields). -/
def floatExact (f : FieldSpec) (v : Value) : Bool :=
  match f.ftype with
  | .FLOAT =>
    match v with
    | .vfloat q => (q * 16777216).den == 1
    | _ => false
  | _ => true

def floatsExact (fields : List FieldSpec) (values : List Value) : Bool :=
  (List.zipWith floatExact fields values).all (fun b => b)

theorem rtValue_eq_of_floatExact {f : FieldSpec} {v : Value}
    (h : floatExact f v = true) : rtValue f v = v := by
  obtain ⟨nm, ft, en⟩ := f
  cases ft <;> simp only [floatExact, rtValue] at h ⊢ <;> try rfl
  · -- FLOAT
    cases v with
    | vfloat q =>
      simp only [beq_iff_eq] at h
      have hnum : (((q * 16777216).num : ℚ)) = q * 16777216 := by
        rw [← Rat.den_eq_one_iff]
        exact h
      have hpr : pyRound (q * 16777216) = (q * 16777216).num := by
        conv_lhs => rw [← hnum]
        exact pyRound_intCast _
      show Value.vfloat (s24_to_float (pyRound (q * 16777216))) = Value.vfloat q
      rw [hpr]
      unfold s24_to_float
      rw [hnum]
      congr 1
      field_simp
    | vint i => cases h
    | vbytes bs => cases h
    | vstr cs => cases h

theorem zipWith_rtValue_eq :
    ∀ (fields : List FieldSpec) (values : List Value),
      floatsExact fields values = true →
      fieldsOk fields values = true →
      List.zipWith rtValue fields values = values := by
  intro fields
  induction fields with
  | nil =>
    intro values _ hok
    cases values with
    | nil => rfl
    | cons v vs => simp [fieldsOk] at hok
  | cons f fs ih =>
    intro values hfe hok
    cases values with
    | nil => simp [fieldsOk] at hok
    | cons v vs =>
      simp only [fieldsOk, Bool.and_eq_true] at hok
      simp only [floatsExact, List.zipWith_cons_cons, List.all_cons,
        Bool.and_eq_true] at hfe
      simp only [List.zipWith_cons_cons]
      rw [rtValue_eq_of_floatExact hfe.1, ih vs hfe.2 hok.2]

/-! ## Claim C1: registered-schema encode/decode round trip -/

def c1Vals : List Value := [.vint 100, .vint 0, .vfloat (1/10), .vfloat 0]

/-- decode ∘ encode, `none` when either direction fails. -/
def decodeEncode (fields : List FieldSpec) (values : List Value) :
    Option (List Value) :=
  match encodeFields fields values with
  | .error _ => none
  | .ok enc =>
    match fromBytesModel fields enc with
    | .error _ => none
    | .ok vs => some vs

/-- C1 counterexample: `PacketRequest_MoveStraight` with the in-range field
value `distance_m = 1/10` does not round-trip: the decoded packet holds
`1677722/2^24`, not `1/10`, because a FLOAT field is quantised to the
fixed-point grid.  So `decode(encode(packet)) == packet` fails for an
in-range assignment of a registered schema. -/
theorem C1_counterexample :
    registryGet MESSAGE_ID_TO_MODEL 100 = some PacketRequest_MoveStraight ∧
    fieldsOk PacketRequest_MoveStraight c1Vals = true ∧
    (decodeEncode PacketRequest_MoveStraight c1Vals).isSome = true ∧
    decodeEncode PacketRequest_MoveStraight c1Vals ≠ some c1Vals := by
  refine ⟨by decide, by with_unfolding_all rfl, by with_unfolding_all rfl, ?_⟩
  intro h
  rw [show decodeEncode PacketRequest_MoveStraight c1Vals =
      some [.vint 100, .vint 0, .vfloat (1677722/16777216), .vfloat 0] from by
        with_unfolding_all rfl] at h
  simp only [Option.some.injEq, List.cons.injEq, Value.vfloat.injEq, and_true,
    true_and, c1Vals] at h
  have : (1677722 / 16777216 : ℚ) ≠ 1 / 10 := by norm_num
  exact this h

/-- C1 (amended): for every schema registered in either service catalog and
every in-range assignment of values to its fields, decoding the bytes of the
encoding yields the packet back, field by field and in declared order, with
enum-backed integers restored — provided every FLOAT field value lies on the
2^-24 fixed-point grid (FLOAT values off the grid decode to their quantised
neighbour instead, as the counterexample shows). -/
theorem C1_roundtrip :
    (∀ mid s values enc,
        registryGet MESSAGE_ID_TO_MODEL mid = some s →
        fieldsOk s values = true →
        floatsExact s values = true →
        encodeFields s values = .ok enc →
        fromBytesModel s enc = .ok values)
    ∧ (∀ cmd s values enc,
        registryGet COMMAND_TO_MODEL cmd = some s →
        fieldsOk s values = true →
        floatsExact s values = true →
        encodeFields s values = .ok enc →
        fromBytesModel s enc = .ok values) := by
  constructor
  · intro mid s values enc hreg hok hfe henc
    have hw := (cts_registry_wf _ (registryGet_mem hreg)).1
    rw [fromBytes_encode hw hok henc, zipWith_rtValue_eq s values hfe hok]
  · intro cmd s values enc hreg hok hfe henc
    have hw := (fts_registry_wf _ (registryGet_mem hreg)).1
    rw [fromBytes_encode hw hok henc, zipWith_rtValue_eq s values hfe hok]

/-- C1 witness: a control packet with a grid-exact float round-trips. -/
theorem C1_witness :
    fromBytesModel PacketRequest_MoveStraight
      [100, 0, 7, 0, 0, 0, 0, 0, 128, 0, 0, 0, 0, 0] =
      .ok [.vint 100, .vint 7, .vfloat (1/2), .vfloat 0] :=
  C1_roundtrip.1 100 PacketRequest_MoveStraight
    [.vint 100, .vint 7, .vfloat (1/2), .vfloat 0]
    [100, 0, 7, 0, 0, 0, 0, 0, 128, 0, 0, 0, 0, 0]
    (by decide) (by with_unfolding_all rfl) (by with_unfolding_all rfl)
    (by with_unfolding_all rfl)

/-! ## Claim C8: discriminator dispatch of `packet_from_bytes` -/

/-- C8: `packet_from_bytes` reads the discriminator from the buffer's fixed
leading position (2 bytes little-endian for the control service, 1 byte for
the file-transfer service); applied to the exact encoded bytes of a packet of
any registered type (its leading discriminator field holding the registered
id) it returns an instance of that type — the registered schema decoded from
the same bytes; and for every buffer whose leading discriminator is not
registered it fails with an unknown-message/unknown-command error. -/
theorem C8_packet_from_bytes :
    (∀ mid s values enc,
        registryGet MESSAGE_ID_TO_MODEL mid = some s →
        values.head? = some (.vint (mid : ℤ)) →
        fieldsOk s values = true →
        encodeFields s values = .ok enc →
        cts_packet_from_bytes enc = .ok (mid, List.zipWith rtValue s values))
    ∧ (∀ buf : List ℕ, 2 ≤ buf.length →
        registryGet MESSAGE_ID_TO_MODEL (readLE (buf.take 2)) = none →
        cts_packet_from_bytes buf = .error (.unknownCommand (readLE (buf.take 2))))
    ∧ (∀ cmd s values enc,
        registryGet COMMAND_TO_MODEL cmd = some s →
        values.head? = some (.vint (cmd : ℤ)) →
        fieldsOk s values = true →
        encodeFields s values = .ok enc →
        fts_packet_from_bytes enc = .ok (cmd, List.zipWith rtValue s values))
    ∧ (∀ buf : List ℕ, 1 ≤ buf.length →
        registryGet COMMAND_TO_MODEL (readLE (buf.take 1)) = none →
        fts_packet_from_bytes buf = .error (.unknownCommand (readLE (buf.take 1)))) := by
  refine ⟨?_, ?_, ?_, ?_⟩
  · intro mid s values enc hreg hhead hok henc
    have hfacts := cts_registry_wf _ (registryGet_mem hreg)
    have hvar : lastOnlyVar s = true := hfacts.1
    have hhd : s.head?.map FieldSpec.ftype = some .UINT16 := hfacts.2.1
    have hlt : mid < 65536 := hfacts.2.2
    have hdec := fromBytes_encode hvar hok henc
    cases s with
    | nil => cases hhd
    | cons f fs =>
      cases values with
      | nil => cases hhead
      | cons v vs =>
        simp only [List.head?_cons, Option.some.injEq] at hhead
        subst hhead
        simp only [List.head?_cons, Option.map_some, Option.some.injEq] at hhd
        obtain ⟨nm, ft, en⟩ := f
        have hft : ft = .UINT16 := by simpa using hhd
        subst hft
        simp only [fieldsOk, Bool.and_eq_true] at hok
        obtain ⟨b, r, hb, hr, rfl⟩ := encodeFields_cons_inv henc
        simp only [fieldOk, Bool.and_eq_true, decide_eq_true_eq] at hok
        simp only [encodeField] at hb
        rw [if_pos ⟨hok.1.1.1, hok.1.1.2⟩] at hb
        cases hb
        have hn : ((mid : ℤ)).toNat = mid := by omega
        have htake : ((encLE 2 ((mid:ℤ)).toNat ++ r) ++ []).take 2 =
            encLE 2 ((mid:ℤ)).toNat := by
          rw [List.append_nil]
          have h2 := List.take_left (encLE 2 ((mid:ℤ)).toNat) r
          rwa [encLE_length] at h2
        rw [List.append_nil] at htake
        have hread : readLE (encLE 2 ((mid:ℤ)).toNat) = mid := by
          rw [readLE_encLE (by rw [hn]; norm_num; omega), hn]
        unfold cts_packet_from_bytes
        rw [if_neg (by simp only [List.length_append, encLE_length]; omega)]
        rw [htake, hread, hreg]
        dsimp only
        rw [hdec]
  · intro buf hlen hreg
    unfold cts_packet_from_bytes
    rw [if_neg (by omega), hreg]
  · intro cmd s values enc hreg hhead hok henc
    have hfacts := fts_registry_wf _ (registryGet_mem hreg)
    have hvar : lastOnlyVar s = true := hfacts.1
    have hhd : s.head?.map FieldSpec.ftype = some .UINT8 := hfacts.2.1
    have hlt : cmd < 256 := hfacts.2.2
    have hdec := fromBytes_encode hvar hok henc
    cases s with
    | nil => cases hhd
    | cons f fs =>
      cases values with
      | nil => cases hhead
      | cons v vs =>
        simp only [List.head?_cons, Option.some.injEq] at hhead
        subst hhead
        simp only [List.head?_cons, Option.map_some, Option.some.injEq] at hhd
        obtain ⟨nm, ft, en⟩ := f
        have hft : ft = .UINT8 := by simpa using hhd
        subst hft
        simp only [fieldsOk, Bool.and_eq_true] at hok
        obtain ⟨b, r, hb, hr, rfl⟩ := encodeFields_cons_inv henc
        simp only [fieldOk, Bool.and_eq_true, decide_eq_true_eq] at hok
        simp only [encodeField] at hb
        rw [if_pos ⟨hok.1.1.1, hok.1.1.2⟩] at hb
        cases hb
        have hn : ((cmd : ℤ)).toNat = cmd := by omega
        have htake : ([((cmd:ℤ)).toNat] ++ r).take 1 = [((cmd:ℤ)).toNat] :=
          List.take_left [((cmd:ℤ)).toNat] r
        have hread : readLE [((cmd:ℤ)).toNat] = cmd := by
          simp [readLE, hn]
        unfold fts_packet_from_bytes
        rw [if_neg (by simp only [List.length_append]; simp)]
        rw [htake, hread, hreg]
        dsimp only
        rw [hdec]
  · intro buf hlen hreg
    unfold fts_packet_from_bytes
    rw [if_neg (by omega), hreg]

/-- C8 witness: concrete dispatch and unknown-discriminator failures for both
services. -/
theorem C8_witness :
    cts_packet_from_bytes [114, 0] = .ok (114, [.vint 114]) ∧
    cts_packet_from_bytes [5, 0] = .error (.unknownCommand 5) ∧
    fts_packet_from_bytes [77] = .ok (77, [.vint 77]) ∧
    fts_packet_from_bytes [64] = .error (.unknownCommand 64) :=
  ⟨C8_packet_from_bytes.1 114 PacketRequest_TurnOff [.vint 114] [114, 0]
      (by decide) rfl (by decide) rfl,
   C8_packet_from_bytes.2.1 [5, 0] (by decide) (by decide),
   C8_packet_from_bytes.2.2.1 77 PacketRequest_FormatFileSystem [.vint 77] [77]
      (by decide) rfl (by decide) rfl,
   C8_packet_from_bytes.2.2.2 [64] (by decide) (by decide)⟩

/-! ## Claim C9: `get_size` versus encoded length -/

/-- All code points of a string field are ASCII (true for non-string fields),
so that `len(str)` agrees with the UTF-8 byte count. -/
def asciiOnly (f : FieldSpec) (v : Value) : Bool :=
  match f.ftype with
  | .STRZ =>
    match v with
    | .vstr cs => cs.all (· < 128)
    | _ => true
  | .STR =>
    match v with
    | .vstr cs => cs.all (· < 128)
    | _ => true
  | _ => true

def asciiFields (fields : List FieldSpec) (values : List Value) : Bool :=
  (List.zipWith asciiOnly fields values).all (fun b => b)

theorem encodeField_length {f : FieldSpec} {v : Value} {b : List ℕ}
    (h : encodeField f v = .ok b) (ha : asciiOnly f v = true) :
    b.length = fieldSize f v := by
  obtain ⟨nm, ft, en⟩ := f
  cases ft with
  | UINT8 =>
    cases v <;> simp only [encodeField] at h
    case vint i =>
      split at h
      · cases h; rfl
      · exact Except.noConfusion h
    all_goals exact Except.noConfusion h
  | UINT16 =>
    cases v <;> simp only [encodeField] at h
    case vint i =>
      split at h
      · cases h; simp [fieldSize, encLE_length]
      · exact Except.noConfusion h
    all_goals exact Except.noConfusion h
  | UINT32 =>
    cases v <;> simp only [encodeField] at h
    case vint i =>
      split at h
      · cases h; simp [fieldSize, encLE_length]
      · exact Except.noConfusion h
    all_goals exact Except.noConfusion h
  | INT8 =>
    cases v <;> simp only [encodeField] at h
    case vint i =>
      split at h
      · cases h; simp [fieldSize, encLEInt, encLE_length]
      · exact Except.noConfusion h
    all_goals exact Except.noConfusion h
  | INT16 =>
    cases v <;> simp only [encodeField] at h
    case vint i =>
      split at h
      · cases h; simp [fieldSize, encLEInt, encLE_length]
      · exact Except.noConfusion h
    all_goals exact Except.noConfusion h
  | INT32 =>
    cases v <;> simp only [encodeField] at h
    case vint i =>
      split at h
      · cases h; simp [fieldSize, encLEInt, encLE_length]
      · exact Except.noConfusion h
    all_goals exact Except.noConfusion h
  | FLOAT =>
    cases v <;> simp only [encodeField] at h
    case vfloat q =>
      cases hf : float_to_s24 q with
      | ok s => rw [hf] at h; cases h; simp [fieldSize, encLEInt, encLE_length]
      | error e => rw [hf] at h; exact Except.noConfusion h
    all_goals exact Except.noConfusion h
  | BYTES =>
    cases v <;> simp only [encodeField] at h
    case vbytes bs => cases h; simp [fieldSize]
    all_goals exact Except.noConfusion h
  | STRZ =>
    cases v <;> simp only [encodeField] at h
    case vstr cs =>
      split at h
      · cases h
        have hall : ∀ c ∈ cs, c < 128 := by
          simpa [asciiOnly, List.all_eq_true] using ha
        simp [fieldSize, utf8Encode_length_ascii hall]
      · exact Except.noConfusion h
    all_goals exact Except.noConfusion h
  | STR =>
    cases v <;> simp only [encodeField] at h
    case vstr cs =>
      split at h
      · cases h
        have hall : ∀ c ∈ cs, c < 128 := by
          simpa [asciiOnly, List.all_eq_true] using ha
        simp [fieldSize, utf8Encode_length_ascii hall]
      · exact Except.noConfusion h
    all_goals exact Except.noConfusion h

/-- C9 (amended): `get_size()` is the sum of the fixed-width field sizes plus
the length of a variable-length last field's current value (BYTES/STR) or
that length plus one (STRZ), with string lengths counted in code points; it
equals the length of the `to_bytes()` buffer for every packet all of whose
string fields are ASCII-only.  (For non-ASCII strings `get_size` counts
characters while `to_bytes` emits UTF-8 bytes, so the two differ, as the
counterexample shows.) -/
theorem C9_get_size :
    ∀ (fields : List FieldSpec) (values : List Value) (enc : List ℕ),
      encodeFields fields values = .ok enc →
      asciiFields fields values = true →
      getSize fields values = enc.length := by
  intro fields
  induction fields with
  | nil =>
    intro values enc henc _
    cases values with
    | nil => cases henc; rfl
    | cons v vs =>
      simp only [encodeFields] at henc
      exact Except.noConfusion henc
  | cons f fs ih =>
    intro values enc henc ha
    cases values with
    | nil =>
      simp only [encodeFields] at henc
      exact Except.noConfusion henc
    | cons v vs =>
      obtain ⟨b, r, hb, hr, rfl⟩ := encodeFields_cons_inv henc
      simp only [asciiFields, List.zipWith_cons_cons, List.all_cons,
        Bool.and_eq_true] at ha
      have h1 := encodeField_length hb ha.1
      have h2 := ih vs r hr ha.2
      simp only [getSize, List.zipWith_cons_cons, List.sum_cons,
        List.length_append] at h2 ⊢
      rw [← h1, h2]

/-- C9 counterexample: `PacketRequest_MakeDirectory(path="é")` (code point
233).  `get_size()` returns 2 (1 command byte + 1 character) but `to_bytes()`
produces 3 bytes (the path encodes to the two UTF-8 bytes 195, 169), so
`get_size()` does not equal the encoded length for every packet. -/
theorem C9_counterexample :
    fieldsOk PacketRequest_MakeDirectory [.vint 70, .vstr [233]] = true ∧
    encodeFields PacketRequest_MakeDirectory [.vint 70, .vstr [233]] =
      .ok [70, 195, 169] ∧
    getSize PacketRequest_MakeDirectory [.vint 70, .vstr [233]] = 2 ∧
    (2 : ℕ) ≠ ([70, 195, 169] : List ℕ).length :=
  ⟨by decide, rfl, by decide, by decide⟩

/-- C9 witness: with an ASCII path the sizes agree. -/
theorem C9_witness :
    getSize PacketRequest_MakeDirectory [.vint 70, .vstr [104, 105]] =
      ([70, 104, 105] : List ℕ).length :=
  C9_get_size PacketRequest_MakeDirectory [.vint 70, .vstr [104, 105]]
    [70, 104, 105] rfl (by decide)

/-! ## File-transfer fragmentation (`fts_client.py`) -/

/-- `MAX_FRAGMENT_SIZE = MAX_PACKET_SIZE - 2` (2 is the `Packet_Fragment`
header size: 1 command byte + 1 index byte). -/
def MAX_FRAGMENT_SIZE : ℕ := MAX_PACKET_SIZE - 2

/-- A sent fragment: the `index` and `data` fields of a `Packet_Fragment`. -/
structure Frag where
  index : ℕ
  data : List ℕ
deriving DecidableEq, Repr

inductive FragErr
  | tooLarge
  | badResponse
  | noResponse
deriving DecidableEq, Repr

/-- `fragment_length = min(MAX_FRAGMENT_SIZE, length - i)`. -/
def fragLen (data : List ℕ) (i : ℕ) : ℕ :=
  min MAX_FRAGMENT_SIZE (data.length - i)

/-- `fragment = data[i : i + fragment_length]`. -/
def fragChunk (data : List ℕ) (i : ℕ) : List ℕ :=
  (data.drop i).take (fragLen data i)

/-- The index actually sent: `fragment_index |= 0x80` on the final fragment
(when `fragment_index >= fragment_count - 1`). -/
def fragIdx (fragmentCount fragmentIndex : ℕ) : ℕ :=
  if fragmentCount - 1 ≤ fragmentIndex then fragmentIndex ||| 0x80
  else fragmentIndex

/-- The send loop of `request_fragmented`.  After each fragment the client
awaits one reply; `resps` scripts them (`true` = the reply parses as a
`Packet_Fragment_Confirmation`).  Returns the fragments actually sent, in
order, and how the loop ended (`none` = normal completion; `badResponse` =
`RuntimeError` on an unexpected reply; `noResponse` = the reply never came,
`TimeoutError`). -/
def requestFragmentedGo (data : List ℕ) (fragmentCount : ℕ) :
    ℕ → ℕ → List Bool → List Frag × Option FragErr
  | fragmentIndex, i, resps =>
    if i < data.length then
      match resps with
      | [] => ([⟨fragIdx fragmentCount fragmentIndex, fragChunk data i⟩], some .noResponse)
      | resp :: rest =>
        if resp then
          ((⟨fragIdx fragmentCount fragmentIndex, fragChunk data i⟩ ::
              (requestFragmentedGo data fragmentCount
                (fragIdx fragmentCount fragmentIndex + 1) (i + fragLen data i) rest).1),
            (requestFragmentedGo data fragmentCount
              (fragIdx fragmentCount fragmentIndex + 1) (i + fragLen data i) rest).2)
        else ([⟨fragIdx fragmentCount fragmentIndex, fragChunk data i⟩], some .badResponse)
    else ([], none)

/-- `FileTransferServiceClient.request_fragmented`. -/
def request_fragmented (data : List ℕ) (resps : List Bool) :
    List Frag × Option FragErr :=
  if 128 * MAX_FRAGMENT_SIZE < data.length then ([], some .tooLarge)
  else requestFragmentedGo data (data.length / MAX_FRAGMENT_SIZE + 1) 0 0 resps

/-- One received `Packet_Fragment` in `notification_handler`: append to the
accumulator; when the index has the high bit set, concatenate everything,
clear the buffer and deliver the reassembled payload. -/
def reassembleStep (fragments : List Frag) (p : Frag) :
    List Frag × Option (List ℕ) :=
  if p.index &&& 0x80 ≠ 0 then
    ([], some (((fragments ++ [p]).map Frag.data).join))
  else (fragments ++ [p], none)

/-- Feed a sequence of fragments through `notification_handler`, returning
the final accumulator and every payload delivered. -/
def reassemble (fragments : List Frag) : List Frag → List Frag × List (List ℕ)
  | [] => (fragments, [])
  | p :: rest =>
    match reassembleStep fragments p with
    | (st1, some out) => ((reassemble st1 rest).1, out :: (reassemble st1 rest).2)
    | (st1, none) => ((reassemble st1 rest).1, (reassemble st1 rest).2)

/-- Split a payload into successive chunks of `MAX_FRAGMENT_SIZE`. -/
def chunks18 : List ℕ → List (List ℕ)
  | [] => []
  | a :: l => (a :: l).take 18 :: chunks18 ((a :: l).drop 18)
  termination_by l => l.length

/-- Fragments for the given chunks: consecutive indices from `idx`, the high
bit set on the final one. -/
def mkFrags (idx : ℕ) : List (List ℕ) → List Frag
  | [] => []
  | [c] => [⟨idx ||| 0x80, c⟩]
  | c :: cs => ⟨idx, c⟩ :: mkFrags (idx + 1) cs

theorem and128_eq_zero {n : ℕ} (h : n < 128) : n &&& 0x80 = 0 := by
  have h1 : n.testBit 7 = false := Nat.testBit_lt_two_pow (by norm_num; omega)
  have h2 := Nat.and_two_pow n 7
  norm_num at h2
  rw [h2, h1]
  rfl

theorem or128_and128 (n : ℕ) : (n ||| 0x80) &&& 0x80 = 128 := by
  have h2 := Nat.and_two_pow (n ||| 0x80) 7
  norm_num at h2
  rw [h2]
  simp [show Nat.testBit 128 7 = true from by decide]

theorem chunks18_join (l : List ℕ) : (chunks18 l).join = l := by
  induction l using chunks18.induct with
  | case1 => rw [chunks18]; rfl
  | case2 a l ih =>
    rw [chunks18]
    simp only [List.join_cons, ih, List.take_append_drop]

theorem chunks18_ne_nil (a : ℕ) (l : List ℕ) : chunks18 (a :: l) ≠ [] := by
  rw [chunks18]
  simp

theorem chunks18_small {l : List ℕ} (h0 : l ≠ []) (h : l.length ≤ 18) :
    chunks18 l = [l] := by
  cases l with
  | nil => exact absurd rfl h0
  | cons a l =>
    rw [chunks18, List.take_all_of_le h, List.drop_eq_nil_of_le h, chunks18]

theorem chunks18_cons_of_lt {l : List ℕ} (h : 18 < l.length) :
    chunks18 l = l.take 18 :: chunks18 (l.drop 18) := by
  cases l with
  | nil => simp at h
  | cons a l => rw [chunks18]

theorem chunks18_length (l : List ℕ) :
    (chunks18 l).length = (l.length + 17) / 18 := by
  induction l using chunks18.induct with
  | case1 => rw [chunks18]; rfl
  | case2 a l ih =>
    rw [chunks18]
    simp only [List.length_cons, ih, List.length_drop]
    omega

theorem chunks18_dropLast_length (l : List ℕ) :
    ∀ c ∈ (chunks18 l).dropLast, c.length = 18 := by
  induction l using chunks18.induct with
  | case1 => simp [chunks18]
  | case2 a l ih =>
    by_cases h : (a :: l).length ≤ 18
    · rw [chunks18_small (by simp) h]
      simp
    · push_neg at h
      rw [chunks18_cons_of_lt h]
      have hne : (a :: l).drop 18 ≠ [] := by
        intro hc
        have := congrArg List.length hc
        simp only [List.length_drop, List.length_nil] at this
        omega
      have hcne : chunks18 ((a :: l).drop 18) ≠ [] := by
        cases hd : (a :: l).drop 18 with
        | nil => exact absurd hd hne
        | cons b bs => exact chunks18_ne_nil b bs
      rw [List.dropLast_cons_of_ne_nil hcne]
      intro c hc
      rcases List.mem_cons.mp hc with rfl | hc2
      · rw [List.length_take]
        simp only [List.length_cons] at h ⊢
        omega
      · exact ih c hc2

theorem chunks18_all_le (l : List ℕ) :
    ∀ c ∈ chunks18 l, c.length ≤ 18 := by
  induction l using chunks18.induct with
  | case1 => simp [chunks18]
  | case2 a l ih =>
    rw [chunks18]
    intro c hc
    rcases List.mem_cons.mp hc with rfl | hc2
    · simp
    · exact ih c hc2

theorem mkFrags_cons_of_ne {idx : ℕ} {c : List ℕ} {cs : List (List ℕ)}
    (h : cs ≠ []) :
    mkFrags idx (c :: cs) = ⟨idx, c⟩ :: mkFrags (idx + 1) cs := by
  cases cs with
  | nil => exact absurd rfl h
  | cons d ds => rfl

theorem reassemble_mkFrags :
    ∀ (chunks : List (List ℕ)) (idx : ℕ) (acc : List Frag),
      chunks ≠ [] → idx + chunks.length ≤ 128 →
      reassemble acc (mkFrags idx chunks) =
        ([], [(acc.map Frag.data).join ++ chunks.join]) := by
  intro chunks
  induction chunks with
  | nil => intro idx acc h _; exact absurd rfl h
  | cons c cs ih =>
    intro idx acc _ hb
    cases cs with
    | nil =>
      rw [mkFrags, reassemble]
      have hstep : reassembleStep acc ⟨idx ||| 0x80, c⟩ =
          ([], some (((acc ++ [(⟨idx ||| 0x80, c⟩ : Frag)]).map Frag.data).join)) := by
        unfold reassembleStep
        rw [if_pos (show (⟨idx ||| 0x80, c⟩ : Frag).index &&& 0x80 ≠ 0 from by
          show (idx ||| 0x80) &&& 0x80 ≠ 0
          rw [or128_and128]
          omega)]
      rw [hstep]
      simp [reassemble, List.join]
    | cons c2 cs2 =>
      rw [mkFrags_cons_of_ne (by simp), reassemble]
      have hstep : reassembleStep acc ⟨idx, c⟩ =
          (acc ++ [(⟨idx, c⟩ : Frag)], none) := by
        unfold reassembleStep
        rw [if_neg (show ¬ (⟨idx, c⟩ : Frag).index &&& 0x80 ≠ 0 from by
          show ¬ idx &&& 0x80 ≠ 0
          rw [and128_eq_zero (show idx < 128 from by
            simp only [List.length_cons] at hb
            omega)]
          omega)]
      rw [hstep]
      dsimp only
      rw [ih (idx + 1) (acc ++ [(⟨idx, c⟩ : Frag)]) (by simp)
        (by simp only [List.length_cons] at hb ⊢; omega)]
      simp [List.join]

theorem requestFragmentedGo_stop {data : List ℕ} {fc idx i : ℕ} (resps : List Bool)
    (h : ¬ i < data.length) :
    requestFragmentedGo data fc idx i resps = ([], none) := by
  cases resps with
  | nil => rw [requestFragmentedGo, if_neg h]
  | cons r rest => rw [requestFragmentedGo, if_neg h]

theorem requestFragmentedGo_spec :
    ∀ (resps : List Bool) (data : List ℕ) (i : ℕ),
      data.length % 18 ≠ 0 →
      i % 18 = 0 → i < data.length →
      (∀ b ∈ resps, b = true) →
      (data.length - i + 17) / 18 ≤ resps.length →
      requestFragmentedGo data (data.length / 18 + 1) (i / 18) i resps =
        (mkFrags (i / 18) (chunks18 (data.drop i)), none) := by
  intro resps
  induction resps with
  | nil =>
    intro data i hm hi hlt hall hcount
    exfalso
    simp only [List.length_nil, Nat.le_zero] at hcount
    omega
  | cons resp rest ih =>
    intro data i hm hi hlt hall hcount
    have hresp : resp = true := hall resp (by simp)
    subst hresp
    simp only [List.length_cons] at hcount
    rw [requestFragmentedGo, if_pos hlt, if_pos rfl]
    by_cases hlast : data.length - i ≤ 18
    · -- final fragment: the index gets the high bit, the loop then stops
      have hdiv : i / 18 = data.length / 18 := by omega
      have hidx : fragIdx (data.length / 18 + 1) (i / 18) = i / 18 ||| 0x80 := by
        unfold fragIdx
        rw [if_pos (by omega)]
      have hfl : fragLen data i = data.length - i := by
        unfold fragLen MAX_FRAGMENT_SIZE MAX_PACKET_SIZE
        omega
      have hchunk : fragChunk data i = data.drop i := by
        unfold fragChunk
        rw [hfl]
        apply List.take_all_of_le
        simp [List.length_drop]
      have hstop : ¬ i + fragLen data i < data.length := by
        rw [hfl]; omega
      rw [requestFragmentedGo_stop rest hstop]
      have hc : chunks18 (data.drop i) = [data.drop i] := by
        apply chunks18_small
        · intro hcon
          have := congrArg List.length hcon
          simp only [List.length_drop, List.length_nil] at this
          omega
        · simp only [List.length_drop]; omega
      rw [hc, hchunk, hidx]
      rfl
    · -- a full 18-byte fragment, no high bit, continue
      push_neg at hlast
      have hidx : fragIdx (data.length / 18 + 1) (i / 18) = i / 18 := by
        unfold fragIdx
        rw [if_neg (by omega)]
      have hfl : fragLen data i = 18 := by
        unfold fragLen MAX_FRAGMENT_SIZE MAX_PACKET_SIZE
        omega
      have hlt' : i + 18 < data.length := by omega
      have hdiv : i / 18 + 1 = (i + 18) / 18 := by omega
      rw [hidx, hfl, hdiv]
      rw [ih data (i + 18) hm (by omega) hlt' (fun b hb => hall b (by simp [hb]))
        (by omega)]
      have hcc : chunks18 (data.drop i) =
          (data.drop i).take 18 :: chunks18 ((data.drop i).drop 18) := by
        apply chunks18_cons_of_lt
        simp only [List.length_drop]
        omega
      have hdd : (data.drop i).drop 18 = data.drop (i + 18) := by
        rw [List.drop_drop]
      have hne : chunks18 (data.drop (i + 18)) ≠ [] := by
        cases hd : data.drop (i + 18) with
        | nil =>
          have := congrArg List.length hd
          simp only [List.length_drop, List.length_nil] at this
          omega
        | cons b bs => exact chunks18_ne_nil b bs
      rw [hcc, hdd, mkFrags_cons_of_ne hne]
      have hchunk : fragChunk data i = (data.drop i).take 18 := by
        unfold fragChunk
        rw [hfl]
      rw [hchunk, ← hdiv]

theorem requestFragmentedGo_badResponse :
    ∀ (j : ℕ) (data : List ℕ) (fc idx i : ℕ) (rest : List Bool),
      i + 18 * j < data.length →
      (requestFragmentedGo data fc idx i
          (List.replicate j true ++ false :: rest)).2 = some .badResponse ∧
      (requestFragmentedGo data fc idx i
          (List.replicate j true ++ false :: rest)).1.length = j + 1 := by
  intro j
  induction j with
  | zero =>
    intro data fc idx i rest hlt
    simp only [List.replicate, List.nil_append]
    rw [requestFragmentedGo, if_pos (by omega)]
    simp
  | succ j ih =>
    intro data fc idx i rest hlt
    simp only [List.replicate_succ, List.cons_append]
    rw [requestFragmentedGo, if_pos (by omega)]
    simp only [if_true]
    have hfl : fragLen data i ≤ 18 := by
      unfold fragLen MAX_FRAGMENT_SIZE MAX_PACKET_SIZE
      omega
    have := ih data fc (fragIdx fc idx + 1) (i + fragLen data i) rest (by omega)
    refine ⟨this.1, ?_⟩
    simp only [List.length_cons, this.2]

theorem requestFragmentedGo_count :
    ∀ (resps : List Bool) (data : List ℕ) (fc idx i : ℕ),
      (requestFragmentedGo data fc idx i resps).1.length ≤
        (data.length - i + 17) / 18 := by
  intro resps
  induction resps with
  | nil =>
    intro data fc idx i
    rw [requestFragmentedGo]
    split
    · simp only [List.length_cons, List.length_nil]
      omega
    · simp only [List.length_nil]
      omega
  | cons resp rest ih =>
    intro data fc idx i
    rw [requestFragmentedGo]
    split
    · rename_i hlt
      cases resp with
      | true =>
        simp only [if_true, List.length_cons]
        have h1 := ih data fc (fragIdx fc idx + 1) (i + fragLen data i)
        have h2 : fragLen data i = min 18 (data.length - i) := by
          unfold fragLen MAX_FRAGMENT_SIZE MAX_PACKET_SIZE
          rfl
        omega
      | false =>
        simp only [Bool.false_eq_true, if_false, List.length_cons, List.length_nil]
        omega
    · simp only [List.length_nil]
      omega

/-- C2: for a payload exceeding the single-packet limit, `request_fragmented`
splits it into chunks of MAX_PACKET_SIZE − 2 = 18 bytes (a `Packet_Fragment`
header is 2 bytes: command byte plus index byte, not 1 as claimed), sends each
chunk with a sequence index and awaits a confirmation before the next (a
non-confirmation reply aborts with a RuntimeError after exactly the fragments
sent so far), sets the high bit of the index on the final chunk, and the
receive-side reassembly concatenates the accumulated data back into the
original payload — all of this provided the payload length is not an exact
multiple of 18: in that case (see `C2_counterexample`) the off-by-one
`fragment_count = length // 18 + 1` leaves the high bit unset on the true last
fragment, so reassembly never fires. -/
theorem C2_fragmentation :
    ∀ (data : List ℕ),
      data.length % 18 ≠ 0 → 0 < data.length →
      data.length ≤ 128 * MAX_FRAGMENT_SIZE →
      ((∀ (resps : List Bool), (∀ b ∈ resps, b = true) →
          (data.length + 17) / 18 ≤ resps.length →
          request_fragmented data resps = (mkFrags 0 (chunks18 data), none)) ∧
        (chunks18 data).join = data ∧
        (∀ c ∈ (chunks18 data).dropLast, c.length = 18) ∧
        (∀ c ∈ chunks18 data, c.length ≤ 18) ∧
        reassemble [] (mkFrags 0 (chunks18 data)) = ([], [data]) ∧
        (∀ (j : ℕ) (rest : List Bool), 18 * j < data.length →
          (request_fragmented data
              (List.replicate j true ++ false :: rest)).2 = some .badResponse ∧
          (request_fragmented data
              (List.replicate j true ++ false :: rest)).1.length = j + 1)) := by
  intro data hm hpos hle
  have h18 : MAX_FRAGMENT_SIZE = 18 := rfl
  have hif : ¬ 128 * MAX_FRAGMENT_SIZE < data.length := by omega
  refine ⟨?_, chunks18_join data, chunks18_dropLast_length data,
    chunks18_all_le data, ?_, ?_⟩
  · intro resps hall hcount
    unfold request_fragmented
    rw [if_neg hif, h18]
    have := requestFragmentedGo_spec resps data 0 hm (by omega) hpos hall
      (by simpa using hcount)
    simpa using this
  · have hne : chunks18 data ≠ [] := by
      cases hd : data with
      | nil => subst hd; simp at hpos
      | cons a l => exact chunks18_ne_nil a l
    have hlen : (0 : ℕ) + (chunks18 data).length ≤ 128 := by
      rw [chunks18_length]
      omega
    rw [reassemble_mkFrags (chunks18 data) 0 [] hne hlen, chunks18_join]
    simp
  · intro j rest hj
    unfold request_fragmented
    rw [if_neg hif, h18]
    exact requestFragmentedGo_badResponse j data (data.length / 18 + 1) 0 0 rest
      (by omega)

/-- C2 counterexample: the chunk size is MAX_PACKET_SIZE − 2 = 18, not the
claimed MAX_PACKET_SIZE − 1 = 19; and for a payload whose length is an exact
multiple of 18 (here 36 bytes) the high bit is set on no fragment at all —
`fragment_count = 36 // 18 + 1 = 3` but only indices 0 and 1 are ever reached,
so `fragment_index >= fragment_count - 1` never holds — hence reassembly
accumulates forever and delivers nothing. -/
theorem C2_counterexample :
    MAX_FRAGMENT_SIZE = 18 ∧
    (request_fragmented (List.replicate 36 7) [true, true]).1 =
      [⟨0, List.replicate 18 7⟩, ⟨1, List.replicate 18 7⟩] ∧
    (request_fragmented (List.replicate 36 7) [true, true]).2 = none ∧
    (List.map Frag.index
        (request_fragmented (List.replicate 36 7) [true, true]).1) = [0, 1] ∧
    (reassemble []
        (request_fragmented (List.replicate 36 7) [true, true]).1).2 = [] := by
  refine ⟨rfl, by decide, by decide, by decide, by decide⟩

/-- C2 witness: a 21-byte payload (not a multiple of 18) with two confirmed
replies is sent as the two fragments of `mkFrags 0 (chunks18 data)` and
reassembles to the original payload. -/
theorem C2_witness :
    request_fragmented (List.replicate 21 5) [true, true] =
      (mkFrags 0 (chunks18 (List.replicate 21 5)), none) ∧
    reassemble [] (mkFrags 0 (chunks18 (List.replicate 21 5))) =
      ([], [List.replicate 21 5]) := by
  have h := C2_fragmentation (List.replicate 21 5) (by decide) (by decide)
    (by decide)
  exact ⟨h.1 [true, true] (by decide) (by decide), h.2.2.2.2.1⟩

/-- C10: `request_fragmented` raises ValueError, sending no fragment, for
every payload longer than 128 × MAX_FRAGMENT_SIZE = 128 × 18 = 2304 bytes;
any payload within the limit is sent as at most 128 fragments, matching the
7-bit fragment index. -/
theorem C10_fragment_limit :
    (∀ (data : List ℕ) (resps : List Bool),
        128 * MAX_FRAGMENT_SIZE < data.length →
        request_fragmented data resps = ([], some .tooLarge)) ∧
    (∀ (data : List ℕ) (resps : List Bool),
        data.length ≤ 128 * MAX_FRAGMENT_SIZE →
        (request_fragmented data resps).1.length ≤ 128) ∧
    128 * MAX_FRAGMENT_SIZE = 2304 := by
  refine ⟨?_, ?_, rfl⟩
  · intro data resps hbig
    unfold request_fragmented
    rw [if_pos hbig]
  · intro data resps hle
    unfold request_fragmented
    rw [if_neg (by omega)]
    have h := requestFragmentedGo_count resps data
      (data.length / MAX_FRAGMENT_SIZE + 1) 0 0
    have h18 : MAX_FRAGMENT_SIZE = 18 := rfl
    omega

set_option maxRecDepth 100000 in
/-- C10 witness: a 2305-byte payload is rejected outright with no fragment
sent; a 36-byte payload stays within the 128-fragment budget. -/
theorem C10_witness :
    request_fragmented (List.replicate 2305 0) [] = ([], some .tooLarge) ∧
    (request_fragmented (List.replicate 36 1) [true, true]).1.length ≤ 128 :=
  ⟨C10_fragment_limit.1 (List.replicate 2305 0) []
      (by simp [MAX_FRAGMENT_SIZE, MAX_PACKET_SIZE]),
   C10_fragment_limit.2.1 (List.replicate 36 1) [true, true] (by decide)⟩

/-! ### Memory read/write block splitting (`ControlServiceClient.mem_read`,
`mem_write`, `mem_read_block`, `mem_write_block`) -/

/-- `MAX_REQUEST_BLOCK_SIZE = MAX_PACKET_SIZE - 8` (8 = MemWrite request
header size). -/
def MAX_REQUEST_BLOCK_SIZE : ℕ := MAX_PACKET_SIZE - 8

/-- `MAX_RESPONSE_BLOCK_SIZE = MAX_PACKET_SIZE - 5` (5 = MemRead response
header size). -/
def MAX_RESPONSE_BLOCK_SIZE : ℕ := MAX_PACKET_SIZE - 5

/-- One scripted `PacketResponse_MemRead`-style reply: its `result` code
(0 = `IOResult.SUCCESS`) and its `data` payload. -/
structure BlockResp where
  result : ℕ
  data : List ℕ
deriving DecidableEq, Repr

inductive MemErr
  | ioError (code : ℕ)
  | noResponse
  | blockTooLarge
deriving DecidableEq, Repr

/-- The `mem_read` loop with `mem_read_block` inlined: starting at offset
`i`, each round computes `block_length = min(MAX_RESPONSE_BLOCK_SIZE,
length - i)`, checks `mem_read_block`'s size guard, issues the block request
`(address + i, block_length)`, consumes one scripted reply, raises
(`raise_for_ioresult`) on a non-SUCCESS result, appends the reply's data and
advances `i` by `block_length`.  Returns the requests issued, in order, and
the concatenated data or the error that aborted the loop. -/
def memReadGo (address length : ℕ) : ℕ → List BlockResp →
    List (ℕ × ℕ) × Except MemErr (List ℕ)
  | i, resps =>
    if i < length then
      if MAX_RESPONSE_BLOCK_SIZE < min MAX_RESPONSE_BLOCK_SIZE (length - i) then
        ([], .error .blockTooLarge)
      else
        match resps with
        | [] => ([(address + i, min MAX_RESPONSE_BLOCK_SIZE (length - i))],
                 .error .noResponse)
        | r :: rest =>
          if r.result = 0 then
            ((address + i, min MAX_RESPONSE_BLOCK_SIZE (length - i)) ::
                (memReadGo address length
                  (i + min MAX_RESPONSE_BLOCK_SIZE (length - i)) rest).1,
              match (memReadGo address length
                  (i + min MAX_RESPONSE_BLOCK_SIZE (length - i)) rest).2 with
              | .error e => .error e
              | .ok d => .ok (r.data ++ d))
          else ([(address + i, min MAX_RESPONSE_BLOCK_SIZE (length - i))],
                .error (.ioError r.result))
    else ([], .ok [])

/-- The `(block_address, block_length)` sequence `mem_read` issues. -/
def readPlan (address length : ℕ) (i : ℕ) : List (ℕ × ℕ) :=
  if h : i < length then
    (address + i, min MAX_RESPONSE_BLOCK_SIZE (length - i)) ::
      readPlan address length (i + min MAX_RESPONSE_BLOCK_SIZE (length - i))
  else []
  termination_by length - i
  decreasing_by
    have h15 : MAX_RESPONSE_BLOCK_SIZE = 15 := rfl
    omega

/-- The blocks start at `start` and each one begins where the previous one
ended (consecutive, increasing addresses). -/
def consecutiveBlocks : ℕ → List (ℕ × ℕ) → Bool
  | _, [] => true
  | start, (a, l) :: rest => (a == start) && consecutiveBlocks (a + l) rest

/-- The `mem_write` loop with `mem_write_block` inlined: each round computes
`block_length = min(MAX_REQUEST_BLOCK_SIZE, len(data) - i)`, slices
`data[i : i + block_length]`, checks `mem_write_block`'s size guard, issues
the request `(address + i, block)`, consumes one scripted result code,
raises on a non-SUCCESS result and advances `i` by `block_length`. -/
def memWriteGo (address : ℕ) (data : List ℕ) : ℕ → List ℕ →
    List (ℕ × List ℕ) × Except MemErr Unit
  | i, results =>
    if i < data.length then
      if MAX_REQUEST_BLOCK_SIZE <
          ((data.drop i).take (min MAX_REQUEST_BLOCK_SIZE (data.length - i))).length
          then
        ([], .error .blockTooLarge)
      else
        match results with
        | [] => ([(address + i,
                   (data.drop i).take (min MAX_REQUEST_BLOCK_SIZE (data.length - i)))],
                 .error .noResponse)
        | r :: rest =>
          if r = 0 then
            ((address + i,
                (data.drop i).take (min MAX_REQUEST_BLOCK_SIZE (data.length - i))) ::
              (memWriteGo address data
                (i + min MAX_REQUEST_BLOCK_SIZE (data.length - i)) rest).1,
             (memWriteGo address data
                (i + min MAX_REQUEST_BLOCK_SIZE (data.length - i)) rest).2)
          else ([(address + i,
                  (data.drop i).take (min MAX_REQUEST_BLOCK_SIZE (data.length - i)))],
                .error (.ioError r))
    else ([], .ok ())

/-- Consecutiveness for write blocks, advancing by the chunk's length. -/
def consecutiveChunks : ℕ → List (ℕ × List ℕ) → Bool
  | _, [] => true
  | start, (a, c) :: rest => (a == start) && consecutiveChunks (a + c.length) rest

theorem read_guard_false (length i : ℕ) :
    ¬ MAX_RESPONSE_BLOCK_SIZE < min MAX_RESPONSE_BLOCK_SIZE (length - i) :=
  Nat.not_lt.mpr (Nat.min_le_left _ _)

theorem write_guard_false (data : List ℕ) (i : ℕ) :
    ¬ MAX_REQUEST_BLOCK_SIZE <
        ((data.drop i).take (min MAX_REQUEST_BLOCK_SIZE (data.length - i))).length := by
  rw [List.length_take]
  exact Nat.not_lt.mpr (le_trans (Nat.min_le_left _ _) (Nat.min_le_left _ _))

theorem memReadGo_stop {address length i : ℕ} (resps : List BlockResp)
    (h : ¬ i < length) : memReadGo address length i resps = ([], .ok []) := by
  cases resps with
  | nil => rw [memReadGo, if_neg h]
  | cons r rest => rw [memReadGo, if_neg h]

theorem memWriteGo_stop {address i : ℕ} {data : List ℕ} (results : List ℕ)
    (h : ¬ i < data.length) : memWriteGo address data i results = ([], .ok ()) := by
  cases results with
  | nil => rw [memWriteGo, if_neg h]
  | cons r rest => rw [memWriteGo, if_neg h]


theorem readPlan_consecutive (address length : ℕ) :
    ∀ i, consecutiveBlocks (address + i) (readPlan address length i) = true := by
  intro i
  induction i using readPlan.induct address length with
  | case1 i h ih =>
    rw [readPlan, dif_pos h]
    simp only [consecutiveBlocks, beq_self_eq_true, Bool.true_and]
    rw [Nat.add_assoc]
    exact ih
  | case2 i h =>
    rw [readPlan, dif_neg h]
    rfl

theorem readPlan_le (address length : ℕ) :
    ∀ i, ∀ b ∈ readPlan address length i, b.2 ≤ MAX_RESPONSE_BLOCK_SIZE := by
  intro i
  induction i using readPlan.induct address length with
  | case1 i h ih =>
    rw [readPlan, dif_pos h]
    intro b hb
    rcases List.mem_cons.mp hb with rfl | hb2
    · exact Nat.min_le_left _ _
    · exact ih b hb2
  | case2 i h =>
    rw [readPlan, dif_neg h]
    intro b hb
    exact absurd hb (List.not_mem_nil b)

theorem readPlan_sum (address length : ℕ) :
    ∀ i, ((readPlan address length i).map Prod.snd).sum = length - i := by
  intro i
  induction i using readPlan.induct address length with
  | case1 i h ih =>
    rw [readPlan, dif_pos h]
    simp only [List.map_cons, List.sum_cons, ih]
    have h15 : MAX_RESPONSE_BLOCK_SIZE = 15 := rfl
    omega
  | case2 i h =>
    rw [readPlan, dif_neg h]
    simp only [List.map_nil, List.sum_nil]
    omega

theorem readPlan_length (address length : ℕ) :
    ∀ i, (readPlan address length i).length = (length - i + 14) / 15 := by
  intro i
  induction i using readPlan.induct address length with
  | case1 i h ih =>
    rw [readPlan, dif_pos h]
    simp only [List.length_cons, ih]
    have h15 : MAX_RESPONSE_BLOCK_SIZE = 15 := rfl
    omega
  | case2 i h =>
    rw [readPlan, dif_neg h]
    simp only [List.length_nil]
    omega

theorem memReadGo_spec :
    ∀ (resps : List BlockResp) (address length i : ℕ),
      (∀ r ∈ resps, r.result = 0) →
      (length - i + 14) / 15 ≤ resps.length →
      memReadGo address length i resps =
        (readPlan address length i,
         .ok (((resps.take ((length - i + 14) / 15)).map BlockResp.data).join)) := by
  intro resps
  induction resps with
  | nil =>
    intro address length i hall hcount
    have hstop : ¬ i < length := by
      simp only [List.length_nil, Nat.le_zero] at hcount
      omega
    rw [memReadGo_stop [] hstop, readPlan, dif_neg hstop]
    have hz : (length - i + 14) / 15 = 0 := by omega
    rw [hz]
    simp
  | cons r rest ih =>
    intro address length i hall hcount
    by_cases h : i < length
    · have hr : r.result = 0 := hall r (by simp)
      have h15 : MAX_RESPONSE_BLOCK_SIZE = 15 := rfl
      rw [memReadGo, if_pos h, if_neg (read_guard_false length i)]
      rw [if_pos hr]
      have hcnt : (length - i + 14) / 15 =
          (length - (i + min MAX_RESPONSE_BLOCK_SIZE (length - i)) + 14) / 15 + 1 := by
        simp only [h15]
        omega
      rw [readPlan, dif_pos h, hcnt]
      rw [ih address length (i + min MAX_RESPONSE_BLOCK_SIZE (length - i))
        (fun b hb => hall b (by simp [hb]))
        (by simp only [List.length_cons] at hcount; simp only [h15]; omega)]
      rfl
    · rw [@memReadGo_stop address length i (r :: rest) h, readPlan, dif_neg h]
      have hz : (length - i + 14) / 15 = 0 := by omega
      rw [hz]
      simp

theorem memReadGo_abort :
    ∀ (rs : List BlockResp) (address length i : ℕ) (bad : BlockResp)
      (rest : List BlockResp),
      (∀ r ∈ rs, r.result = 0) → bad.result ≠ 0 →
      i + 15 * rs.length < length →
      (memReadGo address length i (rs ++ bad :: rest)).2 =
          .error (.ioError bad.result) ∧
      (memReadGo address length i (rs ++ bad :: rest)).1.length = rs.length + 1 := by
  intro rs
  induction rs with
  | nil =>
    intro address length i bad rest hall hbad hlt
    simp only [List.length_nil, Nat.mul_zero, Nat.add_zero] at hlt
    simp only [List.nil_append]
    rw [memReadGo, if_pos hlt, if_neg (read_guard_false length i)]
    rw [if_neg hbad]
    exact ⟨rfl, rfl⟩
  | cons r rs ih =>
    intro address length i bad rest hall hbad hlt
    have hr : r.result = 0 := hall r (by simp)
    have h15 : MAX_RESPONSE_BLOCK_SIZE = 15 := rfl
    have hi : i < length := by simp only [List.length_cons] at hlt; omega
    simp only [List.cons_append]
    rw [memReadGo, if_pos hi, if_neg (read_guard_false length i)]
    rw [if_pos hr]
    have hrec := ih address length (i + min MAX_RESPONSE_BLOCK_SIZE (length - i))
      bad rest (fun b hb => hall b (by simp [hb])) hbad
      (by simp only [List.length_cons] at hlt; simp only [h15]; omega)
    refine ⟨?_, ?_⟩
    · rw [hrec.1]
    · simp only [List.length_cons, hrec.2]

theorem memWriteGo_spec :
    ∀ (results : List ℕ) (address : ℕ) (data : List ℕ) (i : ℕ),
      (∀ r ∈ results, r = 0) →
      (data.length - i + 11) / 12 ≤ results.length →
      (memWriteGo address data i results).2 = .ok () ∧
      ((memWriteGo address data i results).1.map Prod.snd).join = data.drop i ∧
      consecutiveChunks (address + i) (memWriteGo address data i results).1 = true ∧
      (∀ b ∈ (memWriteGo address data i results).1,
        b.2.length ≤ MAX_REQUEST_BLOCK_SIZE) := by
  intro results
  induction results with
  | nil =>
    intro address data i hall hcount
    have hstop : ¬ i < data.length := by
      simp only [List.length_nil, Nat.le_zero] at hcount
      omega
    rw [memWriteGo_stop [] hstop]
    refine ⟨rfl, ?_, rfl, by simp⟩
    simp only [List.map_nil, List.join_nil]
    rw [List.drop_eq_nil_of_le (by omega)]
  | cons r rest ih =>
    intro address data i hall hcount
    by_cases h : i < data.length
    · have hr : r = 0 := hall r (by simp)
      have h12 : MAX_REQUEST_BLOCK_SIZE = 12 := rfl
      rw [memWriteGo, if_pos h, if_neg (write_guard_false data i)]
      rw [if_pos hr]
      have hrec := ih address data (i + min MAX_REQUEST_BLOCK_SIZE (data.length - i))
        (fun b hb => hall b (by simp [hb]))
        (by simp only [List.length_cons] at hcount; simp only [h12]; omega)
      have hchlen :
          ((data.drop i).take (min MAX_REQUEST_BLOCK_SIZE (data.length - i))).length
            = min MAX_REQUEST_BLOCK_SIZE (data.length - i) := by
        rw [List.length_take, List.length_drop]
        simp only [h12]
        omega
      refine ⟨hrec.1, ?_, ?_, ?_⟩
      · simp only [List.map_cons, List.join_cons, hrec.2.1]
        rw [← List.drop_drop]
        exact List.take_append_drop _ _
      · simp only [consecutiveChunks, beq_self_eq_true, Bool.true_and]
        rw [hchlen, Nat.add_assoc]
        exact hrec.2.2.1
      · intro b hb
        rcases List.mem_cons.mp hb with rfl | hb2
        · rw [hchlen]
          exact Nat.min_le_left _ _
        · exact hrec.2.2.2 b hb2
    · rw [@memWriteGo_stop address i data (r :: rest) h]
      refine ⟨rfl, ?_, rfl, by simp⟩
      simp only [List.map_nil, List.join_nil]
      rw [List.drop_eq_nil_of_le (by omega)]

theorem memWriteGo_abort :
    ∀ (rs : List ℕ) (address : ℕ) (data : List ℕ) (i : ℕ) (bad : ℕ)
      (rest : List ℕ),
      (∀ r ∈ rs, r = 0) → bad ≠ 0 →
      i + 12 * rs.length < data.length →
      (memWriteGo address data i (rs ++ bad :: rest)).2 =
          .error (.ioError bad) ∧
      (memWriteGo address data i (rs ++ bad :: rest)).1.length = rs.length + 1 := by
  intro rs
  induction rs with
  | nil =>
    intro address data i bad rest hall hbad hlt
    simp only [List.length_nil, Nat.mul_zero, Nat.add_zero] at hlt
    simp only [List.nil_append]
    rw [memWriteGo, if_pos hlt, if_neg (write_guard_false data i)]
    rw [if_neg hbad]
    exact ⟨rfl, rfl⟩
  | cons r rs ih =>
    intro address data i bad rest hall hbad hlt
    have hr : r = 0 := hall r (by simp)
    have h12 : MAX_REQUEST_BLOCK_SIZE = 12 := rfl
    have hi : i < data.length := by simp only [List.length_cons] at hlt; omega
    simp only [List.cons_append]
    rw [memWriteGo, if_pos hi, if_neg (write_guard_false data i)]
    rw [if_pos hr]
    have hrec := ih address data (i + min MAX_REQUEST_BLOCK_SIZE (data.length - i))
      bad rest (fun b hb => hall b (by simp [hb])) hbad
      (by simp only [List.length_cons] at hlt; simp only [h12]; omega)
    exact ⟨hrec.1, by simp only [List.length_cons, hrec.2]⟩

/-- C7: `mem_read` splits a region into consecutive blocks of at most
`MAX_RESPONSE_BLOCK_SIZE = MAX_PACKET_SIZE - 5 = 15` bytes and `mem_write`
into blocks of at most `MAX_REQUEST_BLOCK_SIZE = MAX_PACKET_SIZE - 8 = 12`
bytes; blocks are requested sequentially at increasing consecutive addresses
covering exactly the region, results are concatenated in request order, the
loop aborts on the first block whose reported result is not SUCCESS (having
issued exactly the blocks up to and including the failing one), and reading
12 bytes issues exactly one block request returning that block's data. -/
theorem C7_mem_blocks :
    (MAX_RESPONSE_BLOCK_SIZE = MAX_PACKET_SIZE - 5 ∧ MAX_RESPONSE_BLOCK_SIZE = 15 ∧
      MAX_REQUEST_BLOCK_SIZE = MAX_PACKET_SIZE - 8 ∧ MAX_REQUEST_BLOCK_SIZE = 12) ∧
    (∀ (address length : ℕ) (resps : List BlockResp),
        (∀ r ∈ resps, r.result = 0) →
        (length + 14) / 15 ≤ resps.length →
        memReadGo address length 0 resps =
          (readPlan address length 0,
           .ok (((resps.take ((length + 14) / 15)).map BlockResp.data).join))) ∧
    (∀ (address length : ℕ),
        consecutiveBlocks address (readPlan address length 0) = true ∧
        (∀ b ∈ readPlan address length 0, b.2 ≤ MAX_RESPONSE_BLOCK_SIZE) ∧
        ((readPlan address length 0).map Prod.snd).sum = length) ∧
    (∀ (address length : ℕ) (rs : List BlockResp) (bad : BlockResp)
        (rest : List BlockResp),
        (∀ r ∈ rs, r.result = 0) → bad.result ≠ 0 →
        15 * rs.length < length →
        (memReadGo address length 0 (rs ++ bad :: rest)).2 =
            .error (.ioError bad.result) ∧
        (memReadGo address length 0 (rs ++ bad :: rest)).1.length = rs.length + 1) ∧
    (∀ (address : ℕ) (data : List ℕ) (results : List ℕ),
        (∀ r ∈ results, r = 0) →
        (data.length + 11) / 12 ≤ results.length →
        (memWriteGo address data 0 results).2 = .ok () ∧
        ((memWriteGo address data 0 results).1.map Prod.snd).join = data ∧
        consecutiveChunks address (memWriteGo address data 0 results).1 = true ∧
        (∀ b ∈ (memWriteGo address data 0 results).1,
          b.2.length ≤ MAX_REQUEST_BLOCK_SIZE)) ∧
    (∀ (address : ℕ) (data : List ℕ) (rs : List ℕ) (bad : ℕ) (rest : List ℕ),
        (∀ r ∈ rs, r = 0) → bad ≠ 0 → 12 * rs.length < data.length →
        (memWriteGo address data 0 (rs ++ bad :: rest)).2 =
            .error (.ioError bad) ∧
        (memWriteGo address data 0 (rs ++ bad :: rest)).1.length = rs.length + 1) ∧
    (∀ (address : ℕ) (r : BlockResp), r.result = 0 →
        memReadGo address 12 0 [r] = ([(address, 12)], .ok r.data)) := by
  refine ⟨⟨rfl, rfl, rfl, rfl⟩, ?_, ?_, ?_, ?_, ?_, ?_⟩
  · intro address length resps hall hcount
    have hs := memReadGo_spec resps address length 0 hall (by simpa using hcount)
    simpa using hs
  · intro address length
    exact ⟨by simpa using readPlan_consecutive address length 0,
      readPlan_le address length 0,
      by simpa using readPlan_sum address length 0⟩
  · intro address length rs bad rest hall hbad hlt
    exact memReadGo_abort rs address length 0 bad rest hall hbad (by omega)
  · intro address data results hall hcount
    have hs := memWriteGo_spec results address data 0 hall (by simpa using hcount)
    exact ⟨hs.1, by simpa using hs.2.1, by simpa using hs.2.2.1, hs.2.2.2⟩
  · intro address data rs bad rest hall hbad hlt
    exact memWriteGo_abort rs address data 0 bad rest hall hbad (by omega)
  · intro address r hr
    have hs := memReadGo_spec [r] address 12 0
      (by intro b hb; rw [List.mem_singleton.mp hb]; exact hr) (by norm_num)
    rw [hs]
    have hplan : readPlan address 12 0 = [(address, 12)] := by
      have h15 : MAX_RESPONSE_BLOCK_SIZE = 15 := rfl
      have h2 : readPlan address 12 12 = [] := by
        rw [readPlan, dif_neg (by norm_num)]
      rw [readPlan, dif_pos (by norm_num), h15]
      norm_num [h2]
    rw [hplan]
    norm_num

/-- C7 witness: reading 12 bytes issues exactly one block request and returns
those 12 bytes; a 20-byte write goes out as two consecutive blocks of 12 and
8 bytes that concatenate back to the payload. -/
theorem C7_witness :
    memReadGo 4096 12 0 [⟨0, [1, 2, 3, 4, 5, 6, 7, 8, 9, 10, 11, 12]⟩] =
      ([(4096, 12)], .ok [1, 2, 3, 4, 5, 6, 7, 8, 9, 10, 11, 12]) ∧
    (memWriteGo 256 (List.replicate 20 9) 0 [0, 0]).2 = .ok () ∧
    ((memWriteGo 256 (List.replicate 20 9) 0 [0, 0]).1.map Prod.snd).join =
      List.replicate 20 9 := by
  have h := C7_mem_blocks
  have hw := h.2.2.2.2.1 256 (List.replicate 20 9) [0, 0] (by decide) (by decide)
  exact ⟨h.2.2.2.2.2.2 4096 ⟨0, [1, 2, 3, 4, 5, 6, 7, 8, 9, 10, 11, 12]⟩ rfl,
    hw.1, hw.2.1⟩

/-! ### `FileTransferService.download_file` (`fts.py`) -/

/-- `FileTransferService.BLOCK_SIZE`. -/
def BLOCK_SIZE : ℕ := 500

/-- The outcome of one iteration of the `download_file` block loop, as seen
at the retry/abort sites of the source: a `TimeoutError` awaiting
`PacketResponse_DownloadBlockStart` (`continue`), a `RuntimeError` at the
block-start response (unexpected type or `raise_for_response_code`), a
`TimeoutError` awaiting `PacketResponse_DownloadBlockEnd` (`continue`), a
`RuntimeError` at the block-end response, or a completed handshake that
accumulated `file_data = d` with device-reported `block_crc = crc`. -/
inductive Attempt
  | startTimeout
  | startErr
  | endTimeout
  | endErr
  | deliver (d : List ℕ) (crc : ℕ)
deriving DecidableEq, Repr

inductive DlResult
  | ok (data : List ℕ)
  | err
  | outOfScript
deriving DecidableEq, Repr

/-- The checks after the loop: `file_size != len(data)` and
`zlib.crc32(data) != file_crc` each raise; otherwise the data is returned. -/
def finalCheck (fileSize fileCrc : ℕ) (data : List ℕ) : DlResult :=
  if fileSize ≠ data.length then .err
  else if crc32 data ≠ fileCrc then .err
  else .ok data

/-- The `download_file` block loop: while `offset < file_size`, compute
`block_size = min(BLOCK_SIZE, file_size - offset)`, run one block handshake
(scripted by `attempts`); timeouts `continue` at the same offset, response
errors raise, and a delivered block is re-requested at the same offset unless
its byte count equals `block_size` and its CRC32 equals the reported
`block_crc`, in which case it is appended and `offset` advances.  After the
loop the aggregate size and CRC checks run. -/
def downloadLoop (fileSize fileCrc : ℕ) : ℕ → List ℕ → List Attempt → DlResult
  | offset, data, attempts =>
    if offset < fileSize then
      match attempts with
      | [] => .outOfScript
      | .startTimeout :: rest => downloadLoop fileSize fileCrc offset data rest
      | .startErr :: _ => .err
      | .endTimeout :: rest => downloadLoop fileSize fileCrc offset data rest
      | .endErr :: _ => .err
      | .deliver d crc :: rest =>
        if min BLOCK_SIZE (fileSize - offset) ≠ d.length then
          downloadLoop fileSize fileCrc offset data rest
        else if crc32 d ≠ crc then
          downloadLoop fileSize fileCrc offset data rest
        else
          downloadLoop fileSize fileCrc
            (offset + min BLOCK_SIZE (fileSize - offset)) (data ++ d) rest
    else finalCheck fileSize fileCrc data

theorem finalCheck_ok {fileSize fileCrc : ℕ} {data d : List ℕ}
    (h : finalCheck fileSize fileCrc data = .ok d) :
    d.length = fileSize ∧ crc32 d = fileCrc := by
  unfold finalCheck at h
  by_cases h1 : fileSize ≠ data.length
  · rw [if_pos h1] at h
    exact absurd h (by simp)
  · rw [if_neg h1] at h
    by_cases h2 : crc32 data ≠ fileCrc
    · rw [if_pos h2] at h
      exact absurd h (by simp)
    · rw [if_neg h2] at h
      push_neg at h1 h2
      cases h
      exact ⟨h1.symm, h2⟩

theorem downloadLoop_ok :
    ∀ (attempts : List Attempt) (fileSize fileCrc offset : ℕ) (data d : List ℕ),
      downloadLoop fileSize fileCrc offset data attempts = .ok d →
      d.length = fileSize ∧ crc32 d = fileCrc := by
  intro attempts
  induction attempts with
  | nil =>
    intro fs fc offset data d h
    rw [downloadLoop] at h
    by_cases ho : offset < fs
    · rw [if_pos ho] at h
      exact absurd h (by simp)
    · rw [if_neg ho] at h
      exact finalCheck_ok h
  | cons a rest ih =>
    intro fs fc offset data d h
    by_cases ho : offset < fs
    · cases a with
      | startTimeout =>
        rw [downloadLoop, if_pos ho] at h
        exact ih fs fc offset data d h
      | startErr =>
        rw [downloadLoop, if_pos ho] at h
        exact absurd h (by simp)
      | endTimeout =>
        rw [downloadLoop, if_pos ho] at h
        exact ih fs fc offset data d h
      | endErr =>
        rw [downloadLoop, if_pos ho] at h
        exact absurd h (by simp)
      | deliver bd crc =>
        rw [downloadLoop, if_pos ho] at h
        by_cases h1 : min BLOCK_SIZE (fs - offset) ≠ bd.length
        · rw [if_pos h1] at h
          exact ih fs fc offset data d h
        · rw [if_neg h1] at h
          by_cases h2 : crc32 bd ≠ crc
          · rw [if_pos h2] at h
            exact ih fs fc offset data d h
          · rw [if_neg h2] at h
            exact ih _ _ _ _ _ h
    · rw [downloadLoop.eq_def] at h
      dsimp only at h
      rw [if_neg ho] at h
      exact finalCheck_ok h

/-- C3: whenever the `download_file` loop returns data normally, that data
has length `file_size` and CRC32 `file_crc` as reported by the
download-start response; a block-start or block-end timeout, a block whose
byte count differs from the requested block size, or a block whose CRC32
differs from the reported `block_crc` is retried at the same offset with the
same accumulated data, a matching block advances the offset by its length,
and after the loop an aggregate size or CRC mismatch yields an error rather
than data. -/
theorem C3_download_file :
    (∀ (fileSize fileCrc offset : ℕ) (data d : List ℕ) (attempts : List Attempt),
        downloadLoop fileSize fileCrc offset data attempts = .ok d →
        d.length = fileSize ∧ crc32 d = fileCrc) ∧
    (∀ (fileSize fileCrc offset : ℕ) (data : List ℕ) (rest : List Attempt),
        offset < fileSize →
        downloadLoop fileSize fileCrc offset data (.startTimeout :: rest) =
          downloadLoop fileSize fileCrc offset data rest ∧
        downloadLoop fileSize fileCrc offset data (.endTimeout :: rest) =
          downloadLoop fileSize fileCrc offset data rest) ∧
    (∀ (fileSize fileCrc offset : ℕ) (data bd : List ℕ) (crc : ℕ)
        (rest : List Attempt),
        offset < fileSize →
        (min BLOCK_SIZE (fileSize - offset) ≠ bd.length →
          downloadLoop fileSize fileCrc offset data (.deliver bd crc :: rest) =
            downloadLoop fileSize fileCrc offset data rest) ∧
        (min BLOCK_SIZE (fileSize - offset) = bd.length → crc32 bd ≠ crc →
          downloadLoop fileSize fileCrc offset data (.deliver bd crc :: rest) =
            downloadLoop fileSize fileCrc offset data rest) ∧
        (min BLOCK_SIZE (fileSize - offset) = bd.length → crc32 bd = crc →
          downloadLoop fileSize fileCrc offset data (.deliver bd crc :: rest) =
            downloadLoop fileSize fileCrc (offset + bd.length) (data ++ bd) rest)) ∧
    (∀ (fileSize fileCrc offset : ℕ) (data : List ℕ) (attempts : List Attempt),
        ¬ offset < fileSize → fileSize ≠ data.length →
        downloadLoop fileSize fileCrc offset data attempts = .err) ∧
    (∀ (fileSize fileCrc offset : ℕ) (data : List ℕ) (attempts : List Attempt),
        ¬ offset < fileSize → crc32 data ≠ fileCrc →
        downloadLoop fileSize fileCrc offset data attempts = .err) := by
  refine ⟨fun fs fc offset data d attempts h =>
    downloadLoop_ok attempts fs fc offset data d h, ?_, ?_, ?_, ?_⟩
  · intro fs fc offset data rest ho
    constructor
    · rw [downloadLoop, if_pos ho]
    · rw [downloadLoop, if_pos ho]
  · intro fs fc offset data bd crc rest ho
    refine ⟨?_, ?_, ?_⟩
    · intro h1
      rw [downloadLoop, if_pos ho, if_pos h1]
    · intro h1 h2
      rw [downloadLoop, if_pos ho, if_neg (not_not_intro h1), if_pos h2]
    · intro h1 h2
      rw [downloadLoop, if_pos ho, if_neg (not_not_intro h1),
        if_neg (not_not_intro h2), h1]
  · intro fs fc offset data attempts ho h1
    rw [downloadLoop.eq_def]
    dsimp only
    rw [if_neg ho]
    unfold finalCheck
    rw [if_pos h1]
  · intro fs fc offset data attempts ho h2
    rw [downloadLoop.eq_def]
    dsimp only
    rw [if_neg ho]
    unfold finalCheck
    by_cases h1 : fs ≠ data.length
    · rw [if_pos h1]
    · rw [if_neg h1, if_pos h2]

/-- C3 witness: a 2-byte file downloaded after one block-start timeout and
one good block comes back with length 2 and the advertised CRC. -/
theorem C3_witness :
    ([7, 9] : List ℕ).length = 2 ∧ crc32 [7, 9] = crc32 [7, 9] :=
  C3_download_file.1 2 (crc32 [7, 9]) 0 [] [7, 9]
    [.startTimeout, .deliver [7, 9] (crc32 [7, 9])] (by decide)

/-! ### The control-service pending-request map (`cts_client.py`) -/

/-- Status of an `asyncio.Future` in the pending-request table. -/
inductive FutStatus
  | waiting
  | resolved
deriving DecidableEq, Repr

/-- Observable actions of `ControlServiceClient.request`. -/
inductive Act
  | register (key : ℕ × ℕ) (fut : ℕ)
  | write
deriving DecidableEq, Repr

/-- `ControlServiceClient` state: `pending_requests` as an association list
from `(message_id, request_id)` to a future id (an index into `futures`),
the future table, and the action trace. -/
structure CtsState where
  pending : List ((ℕ × ℕ) × ℕ)
  futures : List FutStatus
  trace : List Act
deriving DecidableEq, Repr

/-- Python dict assignment `m[k] = v`: replace the value at `k` if the key
is present, else append a new entry. -/
def dictSet (m : List ((ℕ × ℕ) × ℕ)) (k : ℕ × ℕ) (v : ℕ) :
    List ((ℕ × ℕ) × ℕ) :=
  if (m.find? (fun e => e.1 == k)).isSome then
    m.map (fun e => if e.1 == k then (k, v) else e)
  else m ++ [(k, v)]

/-- Python `m.pop(k, None)`: the value at `k` (if any) and the dict without
that key. -/
def dictPop (m : List ((ℕ × ℕ) × ℕ)) (k : ℕ × ℕ) :
    Option ℕ × List ((ℕ × ℕ) × ℕ) :=
  ((m.find? (fun e => e.1 == k)).map Prod.snd,
   m.filter (fun e => e.1 != k))

/-- `request(packet, response_message_id, request_id, timeout)` for a packet
within `MAX_PACKET_SIZE`, up to and including the transport write: with
`timeout >= 0` a fresh future is created and stored under
`(response_message_id, request_id)` (silently overwriting via dict
assignment) BEFORE `write_gatt_char`; with `timeout < 0` the packet is only
written.  Returns the new state and the fresh future's id. -/
def ctsRequestSend (st : CtsState) (k : ℕ × ℕ) (timeoutNonneg : Bool) :
    CtsState × ℕ :=
  if timeoutNonneg then
    ({ pending := dictSet st.pending k st.futures.length,
       futures := st.futures ++ [.waiting],
       trace := st.trace ++ [.register k st.futures.length, .write] },
     st.futures.length)
  else ({ st with trace := st.trace ++ [.write] }, 0)

/-- The `asyncio.TimeoutError` path of `request`: pop the key (with `None`
default) and re-raise. -/
def ctsRequestTimeout (st : CtsState) (k : ℕ × ℕ) : CtsState :=
  { st with pending := (dictPop st.pending k).2 }

/-- `wait_for_event`: registers a fresh future under
`(event_message_id, request_id)` by the same dict assignment. -/
def ctsWaitForEvent (st : CtsState) (k : ℕ × ℕ) : CtsState × ℕ :=
  ({ st with
      pending := dictSet st.pending k st.futures.length,
      futures := st.futures ++ [.waiting] }, st.futures.length)

/-- `response_handler`: pop the packet's key; if a future was pending,
resolve it (`set_result`); otherwise only log. -/
def ctsDeliver (st : CtsState) (k : ℕ × ℕ) : CtsState :=
  match (dictPop st.pending k).1 with
  | some f => { st with pending := (dictPop st.pending k).2,
                        futures := st.futures.set f .resolved }
  | none => st

/-- Keys of the pending map are pairwise distinct. -/
def keysUnique (m : List ((ℕ × ℕ) × ℕ)) : Prop :=
  (m.map Prod.fst).Nodup

theorem dictSet_key_val {m : List ((ℕ × ℕ) × ℕ)} {k : ℕ × ℕ} {v : ℕ}
    {e : (ℕ × ℕ) × ℕ} (he : e ∈ dictSet m k v) (hk : e.1 = k) : e.2 = v := by
  unfold dictSet at he
  by_cases hs : (m.find? (fun e => e.1 == k)).isSome
  · rw [if_pos hs] at he
    obtain ⟨a, _, ha2⟩ := List.mem_map.mp he
    by_cases hak : a.1 = k
    · rw [if_pos (by simpa using hak)] at ha2
      rw [← ha2]
    · rw [if_neg (by simpa using hak)] at ha2
      exact absurd (ha2 ▸ hk) hak
  · rw [if_neg hs] at he
    rcases List.mem_append.mp he with hm | hu
    · exfalso
      rw [Option.isSome_iff_exists] at hs
      push_neg at hs
      have := List.find?_eq_none.mp (by
        cases hfind : m.find? (fun e => e.1 == k) with
        | none => rfl
        | some x => exact absurd hfind (hs x)) e hm
      simp [hk] at this
    · rw [List.mem_singleton.mp hu]

theorem dictSet_mem (m : List ((ℕ × ℕ) × ℕ)) (k : ℕ × ℕ) (v : ℕ) :
    (k, v) ∈ dictSet m k v := by
  unfold dictSet
  by_cases hs : (m.find? (fun e => e.1 == k)).isSome
  · rw [if_pos hs]
    obtain ⟨e, hfind⟩ := Option.isSome_iff_exists.mp hs
    have hmem := List.mem_of_find?_eq_some hfind
    have hpred := List.find?_some hfind
    exact List.mem_map.mpr ⟨e, hmem, by rw [if_pos hpred]⟩
  · rw [if_neg hs]
    simp

theorem dictSet_keysUnique {m : List ((ℕ × ℕ) × ℕ)} (k : ℕ × ℕ) (v : ℕ)
    (h : keysUnique m) : keysUnique (dictSet m k v) := by
  unfold dictSet
  by_cases hs : (m.find? (fun e => e.1 == k)).isSome
  · rw [if_pos hs]
    unfold keysUnique at h ⊢
    have hmap : (m.map (fun e => if e.1 == k then (k, v) else e)).map Prod.fst
        = m.map Prod.fst := by
      rw [List.map_map]
      apply List.map_congr_left
      intro e _
      by_cases hek : e.1 = k
      · simp [hek]
      · simp [hek]
    rw [hmap]
    exact h
  · rw [if_neg hs]
    unfold keysUnique at h ⊢
    rw [List.map_append]
    rw [List.nodup_append]
    refine ⟨h, by simp, ?_⟩
    intro a ha
    simp only [List.map_cons, List.map_nil, List.mem_singleton]
    intro hak
    obtain ⟨e, hem, hefst⟩ := List.mem_map.mp ha
    have : ∀ x ∈ m, ¬ (x.1 == k) = true := by
      intro x hx
      intro hp
      exact absurd (List.find?_isSome.mpr ⟨x, hx, hp⟩) hs
    exact this e hem (by simp [hefst, hak])

theorem dictPop_keysUnique {m : List ((ℕ × ℕ) × ℕ)} (k : ℕ × ℕ)
    (h : keysUnique m) : keysUnique (dictPop m k).2 := by
  unfold dictPop keysUnique at *
  exact h.sublist (List.Sublist.map Prod.fst (List.filter_sublist m))

/-- C4 (amended): the pending map does keep at most one entry per
`(message_id, request_id)` key — dict assignment and pop preserve key
uniqueness — but a second registration for a key that already holds an
uncompleted pending entry SILENTLY REPLACES that entry: the key thereafter
maps to the fresh future only, the displaced future is neither completed nor
cancelled, and a subsequently delivered response resolves only the new
future, stranding the first forever.  This holds for registrations from
`request` and from `wait_for_event` alike. -/
theorem C4_pending_map :
    (∀ (m : List ((ℕ × ℕ) × ℕ)) (k : ℕ × ℕ) (v : ℕ),
        keysUnique m → keysUnique (dictSet m k v)) ∧
    (∀ (m : List ((ℕ × ℕ) × ℕ)) (k : ℕ × ℕ),
        keysUnique m → keysUnique (dictPop m k).2) ∧
    (∀ (st : CtsState) (k : ℕ × ℕ) (f : ℕ),
        (k, f) ∈ st.pending →
        st.futures[f]? = some .waiting →
        (k, st.futures.length) ∈ (ctsRequestSend st k true).1.pending ∧
        (k, f) ∉ (ctsRequestSend st k true).1.pending ∧
        (ctsRequestSend st k true).1.futures[f]? = some .waiting ∧
        (ctsDeliver (ctsRequestSend st k true).1 k).futures[f]? =
          some .waiting) ∧
    (∀ (st : CtsState) (k : ℕ × ℕ) (f : ℕ),
        (k, f) ∈ st.pending →
        st.futures[f]? = some .waiting →
        (k, st.futures.length) ∈ (ctsWaitForEvent st k).1.pending ∧
        (k, f) ∉ (ctsWaitForEvent st k).1.pending) := by
  have hlt : ∀ (l : List FutStatus) (f : ℕ),
      l[f]? = some FutStatus.waiting → f < l.length := by
    intro l f hw
    by_contra hc
    push_neg at hc
    rw [List.getElem?_eq_none hc] at hw
    exact absurd hw (by simp)
  refine ⟨fun m k v h => dictSet_keysUnique k v h,
    fun m k h => dictPop_keysUnique k h, ?_, ?_⟩
  · intro st k f hmem hw
    have hflt : f < st.futures.length := hlt st.futures f hw
    simp only [ctsRequestSend, if_true]
    refine ⟨dictSet_mem _ _ _, ?_, ?_, ?_⟩
    · intro hmem2
      have := dictSet_key_val hmem2 rfl
      simp only at this
      omega
    · rw [List.getElem?_append_left hflt]
      exact hw
    · unfold ctsDeliver
      cases hfind : (dictSet st.pending k st.futures.length).find?
          (fun e => e.1 == k) with
      | none =>
        exfalso
        have : ((dictSet st.pending k st.futures.length).find?
            (fun e => e.1 == k)).isSome :=
          List.find?_isSome.mpr ⟨(k, st.futures.length), dictSet_mem _ _ _, by simp⟩
        rw [hfind] at this
        exact absurd this (by simp)
      | some e =>
        have hek : e.1 = k := by simpa using List.find?_some hfind
        have hev : e.2 = st.futures.length :=
          dictSet_key_val (List.mem_of_find?_eq_some hfind) hek
        simp only [dictPop, hfind, Option.map_some']
        rw [List.getElem?_set_ne (show e.2 ≠ f by omega)]
        rw [List.getElem?_append_left hflt]
        exact hw
  · intro st k f hmem hw
    have hflt : f < st.futures.length := hlt st.futures f hw
    simp only [ctsWaitForEvent]
    refine ⟨dictSet_mem _ _ _, ?_⟩
    intro hmem2
    have := dictSet_key_val hmem2 rfl
    simp only at this
    omega

/-- C4 counterexample: two back-to-back registrations for the same key
`(10, 1)` leave a single map entry pointing at the second future; the first
future is still waiting, and delivering the response resolves only the
second — the first registration was silently replaced without being
completed or cancelled. -/
theorem C4_counterexample :
    (ctsRequestSend (ctsRequestSend ⟨[], [], []⟩ (10, 1) true).1
        (10, 1) true).1.pending = [((10, 1), 1)] ∧
    (ctsRequestSend (ctsRequestSend ⟨[], [], []⟩ (10, 1) true).1
        (10, 1) true).1.futures = [.waiting, .waiting] ∧
    (ctsDeliver (ctsRequestSend (ctsRequestSend ⟨[], [], []⟩ (10, 1) true).1
        (10, 1) true).1 (10, 1)).futures = [.waiting, .resolved] :=
  ⟨by decide, by decide, by decide⟩

/-- C4 witness: with key `(10, 1)` pending on future 0, a second
registration remaps the key to future 1, future 0 stays waiting, and the
delivered response leaves future 0 waiting still. -/
theorem C4_witness :
    ((10, 1), 1) ∈
      (ctsRequestSend ⟨[((10, 1), 0)], [.waiting], []⟩ (10, 1) true).1.pending ∧
    ((10, 1), 0) ∉
      (ctsRequestSend ⟨[((10, 1), 0)], [.waiting], []⟩ (10, 1) true).1.pending ∧
    (ctsRequestSend ⟨[((10, 1), 0)], [.waiting], []⟩ (10, 1) true).1.futures[0]?
      = some .waiting ∧
    (ctsDeliver (ctsRequestSend ⟨[((10, 1), 0)], [.waiting], []⟩
        (10, 1) true).1 (10, 1)).futures[0]? = some .waiting :=
  C4_pending_map.2.2.1 ⟨[((10, 1), 0)], [.waiting], []⟩ (10, 1) 0
    (by decide) (by decide)

/-- C5: with a nonnegative timeout the pending slot for
`(response_message_id, request_id)` is registered before the packet write
(the trace is `register` then `write`); after a timeout the key is removed
from the map, so re-registering the identical key appends a fresh entry
cleanly; with a negative timeout the packet is written without touching the
pending map or the future table (fire and forget). -/
theorem C5_request_lifecycle :
    (∀ (st : CtsState) (k : ℕ × ℕ),
        (ctsRequestSend st k true).1.trace =
          st.trace ++ [.register k st.futures.length, .write] ∧
        (k, st.futures.length) ∈ (ctsRequestSend st k true).1.pending) ∧
    (∀ (st : CtsState) (k : ℕ × ℕ),
        ∀ e ∈ (ctsRequestTimeout st k).pending, e.1 ≠ k) ∧
    (∀ (st : CtsState) (k : ℕ × ℕ),
        (ctsRequestSend (ctsRequestTimeout st k) k true).1.pending =
          (ctsRequestTimeout st k).pending ++
            [(k, (ctsRequestTimeout st k).futures.length)]) ∧
    (∀ (st : CtsState) (k : ℕ × ℕ),
        (ctsRequestSend st k false).1.pending = st.pending ∧
        (ctsRequestSend st k false).1.futures = st.futures ∧
        (ctsRequestSend st k false).1.trace = st.trace ++ [.write]) := by
  refine ⟨?_, ?_, ?_, ?_⟩
  · intro st k
    exact ⟨rfl, dictSet_mem _ _ _⟩
  · intro st k e he
    simp only [ctsRequestTimeout, dictPop] at he
    have := List.of_mem_filter he
    simpa using this
  · intro st k
    have hnone : ∀ e ∈ (ctsRequestTimeout st k).pending, ¬ (e.1 == k) = true := by
      intro e he
      simp only [ctsRequestTimeout, dictPop] at he
      have := List.of_mem_filter he
      simpa using this
    simp only [ctsRequestSend, if_true]
    unfold dictSet
    rw [if_neg (by
      intro hs
      obtain ⟨e, hfind⟩ := Option.isSome_iff_exists.mp hs
      have hp := List.find?_some hfind
      exact hnone e (List.mem_of_find?_eq_some hfind) hp)]
  · intro st k
    exact ⟨rfl, rfl, rfl⟩

/-- C5 witness: from a state pending `((10, 1), 0)` and `((9, 9), 1)`, the
timeout path removes key `(10, 1)` (the surviving entry's key differs), and
a fire-and-forget request leaves the pending map unchanged. -/
theorem C5_witness :
    ((9, 9), 1).1 ≠ ((10 : ℕ), (1 : ℕ)) ∧
    (ctsRequestSend ⟨[((10, 1), 0)], [.waiting], []⟩ (10, 1) false).1.pending
      = [((10, 1), 0)] :=
  ⟨C5_request_lifecycle.2.1 ⟨[((10, 1), 0), ((9, 9), 1)], [.waiting, .waiting], []⟩
      (10, 1) ((9, 9), 1) (by decide),
   (C5_request_lifecycle.2.2.2 ⟨[((10, 1), 0)], [.waiting], []⟩ (10, 1)).1⟩

end Pyozo
